import Mathlib

/-!
# XILLEN network scanner (`scanner.js`): a shallow embedding

The definitions follow the methods of the class `XillenNetworkScanner` and the
command-line action of `scanner.js`.  Sockets, DNS, ping and WHOIS are not
modelled: the outcome of a connect probe and of a banner capture are oracles
passed as parameters; only the port check of `socket.connect` is modelled,
because its exception ends the port scan.  Loops whose termination depends on
the arguments carry explicit fuel and return `none` when it runs out.
-/

namespace Xillen

/-! ## Numbers and strings of the host language -/

/-- A number of the host language, as far as this development tracks it:
`NaN` or an integer. -/
inductive JSNum where
  | nan : JSNum
  | int (n : Int) : JSNum
  deriving DecidableEq

instance (n : Nat) : OfNat JSNum n := ⟨JSNum.int n⟩

/-! ## Data model -/

/-- The `status` field of a probe result. -/
inductive Status where
  | «open» : Status
  | closed : Status
  deriving DecidableEq

/-- The object `{ port, status, service }` that `scanPort` resolves with. -/
structure PortResult where
  port : JSNum
  status : Status
  service : Option String
  deriving DecidableEq

/-- The `details` object of a parsed banner; the code never adds a key to it. -/
structure Details where
  deriving DecidableEq

/-- The object `{ version, banner, details }` that `detectService` resolves with. -/
structure BannerInfo where
  version : String
  banner : Option String
  details : Option Details
  deriving DecidableEq

/-- An entry of `results.services`. -/
structure ServiceRecord where
  port : JSNum
  service : Option String
  version : String
  banner : Option String
  details : Option Details
  deriving DecidableEq

/-- An entry of `results.vulnerabilities`. -/
structure Finding where
  port : JSNum
  service : Option String
  cve : String
  severity : String
  description : String
  remediation : String
  deriving DecidableEq

/-- The part of `this.results` that the scan pipeline itself writes
(`hostInfo`, `networkInfo` and `timestamp` belong to the collaborators). -/
structure Results where
  openPorts : List PortResult
  services : List ServiceRecord
  vulnerabilities : List Finding
  deriving DecidableEq

/-- The fields of an instance of the class `XillenNetworkScanner`. -/
structure XillenNetworkScanner where
  target : String
  ports : List JSNum
  timeout : Int
  threads : Int
  output : Option String
  results : Results
  deriving DecidableEq

/-- The `options` argument of the constructor; `none` is `undefined`. -/
structure Options where
  target : String
  ports : Option (List JSNum)
  timeout : Option JSNum
  threads : Option JSNum
  output : Option String
  deriving DecidableEq

/-! ## Constructor -/

/-- The list returned by `getCommonPorts()`. -/
def getCommonPorts : List JSNum :=
  [21, 22, 23, 25, 53, 80, 110, 135, 139, 143, 443, 993, 995,
   1433, 1521, 3306, 3389, 5432, 5900, 6379, 8080, 8443, 9200, 27017]

/-- The expression `x || d` for a numeric option `x` and a default `d`:
`undefined`, `NaN` and `0` are falsy and give the default. -/
def orDefault (x : Option JSNum) (d : Int) : Int :=
  match x with
  | some (JSNum.int n) => if n = 0 then d else n
  | _ => d

/-- The constructor of `XillenNetworkScanner`.  An array is truthy even when
it is empty, so `options.ports || this.getCommonPorts()` falls back to the
common ports only for `undefined`. -/
def XillenNetworkScanner.new (options : Options) : XillenNetworkScanner :=
  { target := options.target
    ports := match options.ports with
      | some ps => ps
      | none => getCommonPorts
    timeout := orDefault options.timeout 1000
    threads := orDefault options.threads 100
    output := options.output
    results := { openPorts := [], services := [], vulnerabilities := [] } }

/-! ## Port scan -/

/-- The lookup `services[port] || 'Unknown'` of `getServiceName`. -/
def getServiceName (port : JSNum) : String :=
  match port with
  | JSNum.int 21 => "FTP"
  | JSNum.int 22 => "SSH"
  | JSNum.int 23 => "Telnet"
  | JSNum.int 25 => "SMTP"
  | JSNum.int 53 => "DNS"
  | JSNum.int 80 => "HTTP"
  | JSNum.int 110 => "POP3"
  | JSNum.int 135 => "RPC"
  | JSNum.int 139 => "NetBIOS"
  | JSNum.int 143 => "IMAP"
  | JSNum.int 443 => "HTTPS"
  | JSNum.int 993 => "IMAPS"
  | JSNum.int 995 => "POP3S"
  | JSNum.int 1433 => "MSSQL"
  | JSNum.int 1521 => "Oracle"
  | JSNum.int 3306 => "MySQL"
  | JSNum.int 3389 => "RDP"
  | JSNum.int 5432 => "PostgreSQL"
  | JSNum.int 5900 => "VNC"
  | JSNum.int 6379 => "Redis"
  | JSNum.int 8080 => "HTTP-Alt"
  | JSNum.int 8443 => "HTTPS-Alt"
  | JSNum.int 9200 => "Elasticsearch"
  | JSNum.int 27017 => "MongoDB"
  | _ => "Unknown"

/-- The port check that `socket.connect` of the socket library makes before it
connects: for a port that is not an integer within [0, 65535] it throws
`ERR_SOCKET_BAD_PORT`. -/
def isSocketPort : JSNum → Bool
  | JSNum.int n => decide (0 ≤ n) && decide (n ≤ 65535)
  | JSNum.nan => false

/-- The promise that `scanPort(port)` returns; `none` is a rejected promise.
The call `socket.connect` runs inside the executor of the promise, so its
exception for a port that fails the port check rejects the promise.  For any
other port the promise is resolved, and the oracle `isOpen` says whether the
connect callback runs before the timeout and before an error event. -/
def scanPort (isOpen : JSNum → Bool) (port : JSNum) : Option PortResult :=
  if isSocketPort port then
    if isOpen port then
      some { port := port, status := Status.open, service := some (getServiceName port) }
    else
      some { port := port, status := Status.closed, service := none }
  else none

/-- The function `Promise.all`: the results in the order of the promises, or a
rejection (`none`) when one of the promises is rejected. -/
def promiseAll {α : Type} : List (Option α) → Option (List α)
  | [] => some []
  | none :: _ => none
  | some a :: rest =>
    match promiseAll rest with
    | some results => some (a :: results)
    | none => none

/-- The array method `slice(start, end)`: a negative index counts from the end,
both indices are clamped to the array. -/
def jsSlice {α : Type} (array : List α) (start stop : Int) : List α :=
  let len : Int := array.length
  let k : Int := if start < 0 then max (len + start) 0 else min start len
  let final : Int := if stop < 0 then max (len + stop) 0 else min stop len
  (array.drop k.toNat).take (final - k).toNat

/-- The loop of `chunkArray`, entered with the loop variable `i` and the chunks
pushed so far.  One unit of fuel is spent on each test of `i < array.length`. -/
def chunkArrayLoop {α : Type} (array : List α) (chunkSize : Int) :
    Nat → Int → List (List α) → Option (List (List α))
  | 0, _, _ => none
  | fuel + 1, i, chunks =>
    if i < (array.length : Int) then
      chunkArrayLoop array chunkSize fuel (i + chunkSize)
        (chunks ++ [jsSlice array i (i + chunkSize)])
    else
      some chunks

/-- The method `chunkArray(array, chunkSize)`; `none` when the fuel runs out. -/
def chunkArray {α : Type} (fuel : Nat) (array : List α) (chunkSize : Int) :
    Option (List (List α)) :=
  chunkArrayLoop array chunkSize fuel 0 []

/-- The state of the loop of `scanPorts`: the local `openPorts`, the field
`this.results.openPorts`, and a log with one entry for each group of probes
that was started together and awaited with `Promise.all`. -/
structure ScanState where
  openPorts : List PortResult
  resultsOpenPorts : List PortResult
  probed : List (List JSNum)
  deriving DecidableEq

/-- The inner loop of `scanPorts` over the results of one batch. -/
def collectOpen (st : ScanState) (results : List PortResult) : ScanState :=
  results.foldl
    (fun st result =>
      if result.status = Status.open then
        { st with
          openPorts := st.openPorts ++ [result]
          resultsOpenPorts := st.resultsOpenPorts ++ [result] }
      else st)
    st

/-- One iteration of the outer loop of `scanPorts`: the probes of the batch are
started together, `Promise.all` gives their results in the order of the batch;
`none` when the awaited `Promise.all` is rejected, which ends `scanPorts` with
an exception. -/
def scanBatch (isOpen : JSNum → Bool) (st : ScanState) (batch : List JSNum) :
    Option ScanState :=
  match promiseAll (batch.map (scanPort isOpen)) with
  | some results => some (collectOpen { st with probed := st.probed ++ [batch] } results)
  | none => none

/-- The outer loop of `scanPorts` over the batches, one batch after the other. -/
def scanBatches (isOpen : JSNum → Bool) : ScanState → List (List JSNum) → Option ScanState
  | st, [] => some st
  | st, batch :: rest =>
    match scanBatch isOpen st batch with
    | some st1 => scanBatches isOpen st1 rest
    | none => none

/-- The method `scanPorts()`: the final loop state, or `none` when `chunkArray`
does not return within the fuel or a batch ends with an exception. -/
def scanPortsState (fuel : Nat) (isOpen : JSNum → Bool) (s : XillenNetworkScanner) :
    Option ScanState :=
  match chunkArray fuel s.ports s.threads with
  | none => none
  | some batches =>
    scanBatches isOpen
      { openPorts := [], resultsOpenPorts := s.results.openPorts, probed := [] } batches

/-- The return value of `scanPorts()` together with the updated scanner; `none`
when `scanPorts()` does not return. -/
def scanPorts (fuel : Nat) (isOpen : JSNum → Bool) (s : XillenNetworkScanner) :
    Option (List PortResult × XillenNetworkScanner) :=
  match scanPortsState fuel isOpen s with
  | none => none
  | some st =>
    some (st.openPorts, { s with results := { s.results with openPorts := st.resultsOpenPorts } })

/-! ## Strings -/

/-- The string method `includes(pattern)`, on lists of characters. -/
def includesL : List Char → List Char → Bool
  | [], pat => pat.isEmpty
  | c :: s, pat => pat.isPrefixOf (c :: s) || includesL s pat

/-- The string method `includes(pattern)`. -/
def includes (s pat : String) : Bool := includesL s.data pat.data

/-- White space and line terminators, the characters that `trim()` removes,
by code point. -/
def isJsSpace (c : Char) : Bool :=
  let n := c.toNat
  n == 0x09 || n == 0x0A || n == 0x0B || n == 0x0C || n == 0x0D || n == 0x20 || n == 0xA0 ||
  n == 0x1680 || (0x2000 ≤ n && n ≤ 0x200A) || n == 0x2028 || n == 0x2029 || n == 0x202F ||
  n == 0x205F || n == 0x3000 || n == 0xFEFF

/-- The string method `trim()`, on lists of characters. -/
def trimL (s : List Char) : List Char :=
  ((s.dropWhile isJsSpace).reverse.dropWhile isJsSpace).reverse

/-- The class `\d` of a regular expression without the unicode flag: the
characters `0` to `9`, code points 48 to 57. -/
def isDigit (c : Char) : Bool := 48 ≤ c.toNat && c.toNat ≤ 57

/-- The class `[^\r\n]`. -/
def notCRLF (c : Char) : Bool := c != '\r' && c != '\n'

/-- The leftmost-match search of `String.prototype.match` for a regular
expression without the global flag: the matcher `m` is tried at every start
position from left to right, the end of the string included. -/
def firstMatch {β : Type} (m : List Char → Option β) : List Char → Option β
  | [] => m []
  | c :: s =>
    match m (c :: s) with
    | some r => some r
    | none => firstMatch m s

/-- The pattern `\d+\.\d+` anchored at the start of `s`, giving the matched
text.  Both `\d+` are greedy; giving back digits of the first one can never
help, because the character that follows must be the dot. -/
def matchMajorMinor (s : List Char) : Option (List Char) :=
  let d1 := s.takeWhile isDigit
  let r1 := s.dropWhile isDigit
  let d2 := (r1.drop 1).takeWhile isDigit
  if d1 ≠ [] ∧ r1.head? = some '.' ∧ d2 ≠ [] then some (d1 ++ '.' :: d2) else none

/-- The pattern `\d+\.\d+\.\d+` anchored at the start of `s`, giving the
matched text. -/
def matchMajorMinorPatch (s : List Char) : Option (List Char) :=
  let d1 := s.takeWhile isDigit
  let r1 := s.dropWhile isDigit
  let d2 := (r1.drop 1).takeWhile isDigit
  let r2 := (r1.drop 1).dropWhile isDigit
  let d3 := (r2.drop 1).takeWhile isDigit
  if d1 ≠ [] ∧ r1.head? = some '.' ∧ d2 ≠ [] ∧ r2.head? = some '.' ∧ d3 ≠ [] then
    some (d1 ++ '.' :: d2 ++ '.' :: d3)
  else none

/-- The pattern `SSH-(\d+\.\d+)` anchored at the start of `s`, giving the
capture group. -/
def matchSsh (s : List Char) : Option (List Char) :=
  if "SSH-".data.isPrefixOf s then matchMajorMinor (s.drop 4) else none

/-- Case folding of the ignore-case flag for the letters of the pattern: an
ASCII capital is mapped to its small letter, every other character is kept
(a character outside ASCII never matches an ASCII letter). -/
def foldCase (c : Char) : Char :=
  if 'A' ≤ c && c ≤ 'Z' then Char.ofNat (c.toNat + 32) else c

/-- The pattern `Server: ([^\r\n]+)` with the ignore-case flag, anchored at the
start of `s`, giving the capture group. -/
def matchServer (s : List Char) : Option (List Char) :=
  if (s.take 8).map foldCase = "server: ".data then
    match (s.drop 8).takeWhile notCRLF with
    | [] => none
    | c :: cs => some (c :: cs)
  else none

/-- The pattern `220 ([^\r\n]+)` anchored at the start of `s`, giving the
capture group. -/
def match220 (s : List Char) : Option (List Char) :=
  if "220 ".data.isPrefixOf s then
    match (s.drop 4).takeWhile notCRLF with
    | [] => none
    | c :: cs => some (c :: cs)
  else none

/-! ## Banner parsing -/

/-- The version that `parseBanner` computes, on lists of characters. -/
def parseVersionL (banner : List Char) : List Char :=
  if includesL banner "SSH".data then
    match firstMatch matchSsh banner with
    | some m => "SSH ".data ++ m
    | none => "Unknown".data
  else if includesL banner "HTTP".data then
    match firstMatch matchServer banner with
    | some m => m
    | none => "Unknown".data
  else if includesL banner "FTP".data then
    match firstMatch match220 banner with
    | some m => m
    | none => "Unknown".data
  else "Unknown".data

/-- The method `parseBanner(banner, port)`. -/
def parseBanner (banner : String) (_port : JSNum) : BannerInfo :=
  { version := String.mk (parseVersionL banner.data)
    banner := some (String.mk (trimL banner.data))
    details := some {} }

/-! ## Doubles -/

/-- A double that is not negative: `NaN`, `+Infinity`, or the finite value
`mant * 2 ^ exp`. -/
inductive JSDouble where
  | nan : JSDouble
  | inf : JSDouble
  | fin (mant : Nat) (exp : Int) : JSDouble
  deriving DecidableEq

/-- The relation `a < b` on doubles; a comparison with `NaN` is false. -/
def JSDouble.lt : JSDouble → JSDouble → Bool
  | JSDouble.fin m1 e1, JSDouble.fin m2 e2 =>
    let e := min e1 e2
    decide (m1 * 2 ^ (e1 - e).toNat < m2 * 2 ^ (e2 - e).toNat)
  | JSDouble.fin _ _, JSDouble.inf => true
  | _, _ => false

/-- The number of halvings that take `n` below 2, within the fuel. -/
def log2Fuel : Nat → Nat → Nat
  | 0, _ => 0
  | fuel + 1, n => if n < 2 then 0 else log2Fuel fuel (n / 2) + 1

/-- The integer `k` with `2 ^ k ≤ n < 2 ^ (k + 1)`, for positive `n`. -/
def log2 (n : Nat) : Nat := log2Fuel n n

/-- The integer `e` with `2 ^ e ≤ n / d < 2 ^ (e + 1)`, for positive `n` and `d`. -/
def floorLog2 (n d : Nat) : Int :=
  let e0 : Int := (log2 n : Int) - (log2 d : Int)
  if d * 2 ^ e0.toNat ≤ n * 2 ^ (-e0).toNat then e0 else e0 - 1

/-- The double nearest to the rational `n / d` (`d` positive), ties to the even
significand: 53 bits of significand, least exponent `-1074`; the largest finite
double is `(2 ^ 53 - 1) * 2 ^ 971`, what rounds above it is infinity.  This is
the value of a decimal literal and of `parseFloat`. -/
def roundDouble (n d : Nat) : JSDouble :=
  if n = 0 then JSDouble.fin 0 0
  else
    let p : Int := max (floorLog2 n d - 52) (-1074)
    let num := n * 2 ^ (-p).toNat
    let den := d * 2 ^ p.toNat
    let q := num / den
    let r := num % den
    let m := if 2 * r < den then q else if den < 2 * r then q + 1
      else if q % 2 = 0 then q else q + 1
    if 971 < p ∨ (p = 971 ∧ m = 2 ^ 53) then JSDouble.inf else JSDouble.fin m p

/-- The value of a string of decimal digits. -/
def digitsVal (ds : List Char) : Nat :=
  ds.foldl (fun acc c => 10 * acc + (c.toNat - 48)) 0

/-- The function `parseFloat` on a string that starts with an unsigned decimal
number without exponent, which is what the captures `\d+\.\d+` and
`\d+\.\d+\.\d+` are: the longest prefix `digits` or `digits.digits` is read, a
second dot ends the number.  A string that starts with neither a digit nor a
dot followed by a digit gives `NaN`. -/
def parseFloat (s : List Char) : JSDouble :=
  let d1 := s.takeWhile isDigit
  let r1 := s.dropWhile isDigit
  let d2 := if r1.head? = some '.' then (r1.drop 1).takeWhile isDigit else []
  if d1 = [] ∧ d2 = [] then JSDouble.nan
  else roundDouble (digitsVal (d1 ++ d2)) (10 ^ d2.length)

/-! ## Vulnerability rules -/

/-- The method `checkVulnerabilities(service)`: three independent rules, each
pushing at most one finding. -/
def checkVulnerabilities (service : ServiceRecord) : List Finding :=
  let ssh : List Finding :=
    if service.service = some "SSH" ∧ includes service.version "OpenSSH" then
      match firstMatch matchMajorMinor service.version.data with
      | some version =>
        if (parseFloat version).lt (roundDouble 74 10) then
          [{ port := service.port
             service := service.service
             cve := "CVE-2018-15473"
             severity := "Medium"
             description := "OpenSSH username enumeration vulnerability"
             remediation := "Update OpenSSH to version 7.4 or later" }]
        else []
      | none => []
    else []
  let http : List Finding :=
    if service.service = some "HTTP" ∧ includes service.version "Apache" then
      match firstMatch matchMajorMinorPatch service.version.data with
      | some version =>
        if (parseFloat version).lt (roundDouble 24 10) then
          [{ port := service.port
             service := service.service
             cve := "CVE-2017-15715"
             severity := "High"
             description := "Apache HTTP Server vulnerability"
             remediation := "Update Apache to version 2.4.29 or later" }]
        else []
      | none => []
    else []
  let ftp : List Finding :=
    if service.service = some "FTP" then
      [{ port := service.port
         service := service.service
         cve := "N/A"
         severity := "Info"
         description := "FTP service detected - consider using SFTP"
         remediation := "Disable FTP and use SFTP or FTPS" }]
    else []
  ssh ++ http ++ ftp

/-! ## Service detection and the pipeline -/

/-- What happens to the socket of `detectService`: the idle timeout fires after
`banner` has been received, or an error event comes first, or the promise is
rejected.  A socket on which neither event ever fires leaves the promise
unsettled, so that `serviceDetection` does not return; that case has no outcome
here. -/
inductive Capture where
  | timeout (banner : String) : Capture
  | error : Capture
  | rejected : Capture
  deriving DecidableEq

/-- The method `detectService(port)`; `none` is a rejected promise. -/
def detectService (capture : JSNum → Capture) (port : JSNum) : Option BannerInfo :=
  match capture port with
  | Capture.timeout banner => some (parseBanner banner port)
  | Capture.error => some { version := "Unknown", banner := none, details := none }
  | Capture.rejected => none

/-- The body of the loop of `serviceDetection` for one open port. -/
def serviceRecord (capture : JSNum → Capture) (portInfo : PortResult) : ServiceRecord :=
  match detectService capture portInfo.port with
  | some service =>
    { port := portInfo.port
      service := portInfo.service
      version := service.version
      banner := service.banner
      details := service.details }
  | none =>
    { port := portInfo.port
      service := portInfo.service
      version := "Unknown"
      banner := none
      details := none }

/-- The method `serviceDetection()`. -/
def serviceDetection (capture : JSNum → Capture) (s : XillenNetworkScanner) : XillenNetworkScanner :=
  { s with results := { s.results with
      services := s.results.openPorts.foldl
        (fun services portInfo => services ++ [serviceRecord capture portInfo])
        s.results.services } }

/-- The method `vulnerabilityScan()`. -/
def vulnerabilityScan (s : XillenNetworkScanner) : XillenNetworkScanner :=
  { s with results := { s.results with
      vulnerabilities := s.results.services.foldl
        (fun vulnerabilities service => vulnerabilities ++ checkVulnerabilities service)
        s.results.vulnerabilities } }

/-- The stages of `run()` that write the open ports, the services and the
findings; `none` when `scanPorts` does not return. -/
def run (fuel : Nat) (isOpen : JSNum → Bool) (capture : JSNum → Capture) (s : XillenNetworkScanner) :
    Option XillenNetworkScanner :=
  match scanPorts fuel isOpen s with
  | none => none
  | some (_, s1) => some (vulnerabilityScan (serviceDetection capture s1))

/-! ## Command line -/

/-- The string method `split(sep)` for a separator of one character. -/
def splitL (sep : Char) : List Char → List (List Char)
  | [] => [[]]
  | c :: s =>
    if c = sep then [] :: splitL sep s
    else
      match splitL sep s with
      | [] => [[c]]
      | part :: parts => (c :: part) :: parts

/-- The conversion `Number(string)` on the strings this development tracks:
after trimming, the empty string is `0` and an optional sign followed by
decimal digits is that integer (exact up to `2 ^ 53`); a string that is no
numeric literal is `NaN`.  Literals with a fraction, an exponent or a radix
prefix and `Infinity` are not tracked and are classified `NaN` here; no
theorem below applies `jsNumber` to one of them. -/
def jsNumber (s : List Char) : JSNum :=
  let t := trimL s
  let ds := if t.head? = some '+' ∨ t.head? = some '-' then t.drop 1 else t
  if t = [] then JSNum.int 0
  else if ds ≠ [] ∧ ds.all isDigit = true then
    JSNum.int (if t.head? = some '-' then -(digitsVal ds : Int) else (digitsVal ds : Int))
  else JSNum.nan

/-- A hexadecimal digit. -/
def isHexDigit (c : Char) : Bool :=
  isDigit c || ('a' ≤ c && c ≤ 'f') || ('A' ≤ c && c ≤ 'F')

/-- The value of a string of hexadecimal digits. -/
def hexVal (ds : List Char) : Nat :=
  ds.foldl
    (fun acc c =>
      16 * acc + (if isDigit c then c.toNat - 48
        else if 'a' ≤ c && c ≤ 'f' then c.toNat - 87 else c.toNat - 55))
    0

/-- The function `parseInt(string)` without a radix: leading white space and a
sign are skipped, `0x` or `0X` selects base 16, the longest prefix of digits is
read, and no digit at all gives `NaN` (exact up to `2 ^ 53`). -/
def parseInt (s : List Char) : JSNum :=
  let t := s.dropWhile isJsSpace
  let u := if t.head? = some '+' ∨ t.head? = some '-' then t.drop 1 else t
  let hex : Bool := "0x".data.isPrefixOf u || "0X".data.isPrefixOf u
  let ds := if hex then (u.drop 2).takeWhile isHexDigit else u.takeWhile isDigit
  let v : Int := if hex then (hexVal ds : Int) else (digitsVal ds : Int)
  if ds = [] then JSNum.nan
  else JSNum.int (if t.head? = some '-' then -v else v)

/-- The options object that the command-line library hands to the action:
`timeout` and `threads` are strings with the defaults `'1000'` and `'100'`. -/
structure CliOptions where
  ports : Option String
  timeout : String
  threads : String
  output : Option String
  quick : Bool
  deriving DecidableEq

/-- The port list of the `--quick` option. -/
def quickPorts : List JSNum :=
  [21, 22, 23, 25, 53, 80, 110, 135, 139, 143, 443, 993, 995, 1433, 3306, 3389,
   5432, 5900, 8080, 8443]

/-- The expression `Array.from({ length: end - start + 1 }, (_, i) => start + i)`:
a length that is `NaN` or negative counts as 0, a length above `2 ^ 32 - 1`
throws a `RangeError`. -/
def rangePorts (start stop : JSNum) : Except String (List JSNum) :=
  match start, stop with
  | JSNum.int a, JSNum.int b =>
    if 2 ^ 32 - 1 < b - a + 1 then Except.error "RangeError: Invalid array length"
    else Except.ok ((List.range (b - a + 1).toNat).map (fun i : Nat => JSNum.int (a + (i : Int))))
  | _, _ => Except.ok []

/-- The computation of `ports` in the action; `none` is `undefined`.  The empty
string is falsy, so `--ports ''` leaves `ports` undefined. -/
def parsePorts (options : CliOptions) : Except String (Option (List JSNum)) :=
  if options.quick then Except.ok (some quickPorts)
  else
    match options.ports with
    | none => Except.ok none
    | some ports =>
      if ports = "" then Except.ok none
      else if includes ports "-" then
        let numbers := (splitL '-' ports.data).map jsNumber
        match rangePorts (numbers.getD 0 JSNum.nan) (numbers.getD 1 JSNum.nan) with
        | Except.ok ps => Except.ok (some ps)
        | Except.error e => Except.error e
      else Except.ok (some ((splitL ',' ports.data).map jsNumber))

/-- The action of the command up to the construction of the scanner, on which
`run()` is then called; an error is an exception thrown before the scanner
exists. -/
def action (target : String) (options : CliOptions) : Except String XillenNetworkScanner :=
  match parsePorts options with
  | Except.error e => Except.error e
  | Except.ok ports =>
    Except.ok (XillenNetworkScanner.new
      { target := target
        ports := ports
        timeout := some (parseInt options.timeout.data)
        threads := some (parseInt options.threads.data)
        output := options.output })

/-! ## Notions used to state the properties -/

/-- The result object of an open port. -/
def openResult (port : JSNum) : PortResult :=
  { port := port, status := Status.open, service := some (getServiceName port) }

/-- The result object that the promise of `scanPort` is resolved with. -/
def probeResult (isOpen : JSNum → Bool) (port : JSNum) : PortResult :=
  if isOpen port then openResult port
  else { port := port, status := Status.closed, service := none }

/-- Two non-empty runs of decimal digits: the parts of a text `major.minor`. -/
def IsMajorMinor (d1 d2 : List Char) : Prop :=
  d1 ≠ [] ∧ d2 ≠ [] ∧ (∀ c ∈ d1, isDigit c = true) ∧ (∀ c ∈ d2, isDigit c = true)

instance (d1 d2 : List Char) : Decidable (IsMajorMinor d1 d2) := by
  unfold IsMajorMinor; infer_instance

/-- The string `s` does not start with a decimal digit. -/
def NoDigitAhead (s : List Char) : Prop := ∀ c, s.head? = some c → isDigit c = false

/-- The first occurrence of `key<digits>.<digits>` in `s` has the digits `d1`
before the dot and `d2`, the whole run of digits, after it: there is an
occurrence behind the prefix `pre`, no digit follows `d2`, and no occurrence
starts further to the left. -/
def FirstVersion (key s d1 d2 : List Char) : Prop :=
  ∃ pre rest, s = pre ++ (key ++ (d1 ++ '.' :: (d2 ++ rest))) ∧ IsMajorMinor d1 d2 ∧
    NoDigitAhead rest ∧
    ∀ pre' e1 e2 rest', s = pre' ++ (key ++ (e1 ++ '.' :: (e2 ++ rest'))) →
      IsMajorMinor e1 e2 → pre.length ≤ pre'.length

/-- There is no occurrence of `key<digits>.<digits>` in `s`. -/
def NoVersion (key s : List Char) : Prop :=
  ∀ pre d1 d2 rest, IsMajorMinor d1 d2 → s ≠ pre ++ (key ++ (d1 ++ '.' :: (d2 ++ rest)))

/-- There is no occurrence of `Server: ` in any mix of capitals and small
letters, followed by a character other than CR and LF, in `s`. -/
def NoServerHeader (s : List Char) : Prop :=
  ∀ pre key c rest, key.map foldCase = "server: ".data → notCRLF c = true →
    s ≠ pre ++ (key ++ c :: rest)

/-- There is no occurrence of `220 ` followed by a character other than CR and
LF in `s`. -/
def NoReply220 (s : List Char) : Prop :=
  ∀ pre c rest, notCRLF c = true → s ≠ pre ++ ("220 ".data ++ c :: rest)

/-- The pattern `key\d+\.\d+` anchored at the start of `s`; `matchSsh` and
`matchMajorMinor` are the instances with the keys `SSH-` and the empty one. -/
def matchKeyed (key s : List Char) : Option (List Char) :=
  if key.isPrefixOf s then matchMajorMinor (s.drop key.length) else none

/-- The double that the decimal number `d1.d2` denotes. -/
def decimalDouble (d1 d2 : List Char) : JSDouble :=
  roundDouble (digitsVal (d1 ++ d2)) (10 ^ d2.length)

/-- The finding of the OpenSSH rule for a port. -/
def opensshFinding (port : JSNum) : Finding :=
  { port := port
    service := some "SSH"
    cve := "CVE-2018-15473"
    severity := "Medium"
    description := "OpenSSH username enumeration vulnerability"
    remediation := "Update OpenSSH to version 7.4 or later" }

/-- The advisory finding of the FTP rule for a port. -/
def ftpFinding (port : JSNum) : Finding :=
  { port := port
    service := some "FTP"
    cve := "N/A"
    severity := "Info"
    description := "FTP service detected - consider using SFTP"
    remediation := "Disable FTP and use SFTP or FTPS" }

/-- A decimal integer within [1, 65535], written with digits only. -/
def IsPortToken (t : List Char) : Prop :=
  t ≠ [] ∧ (∀ c ∈ t, isDigit c = true) ∧ 1 ≤ digitsVal t ∧ digitsVal t ≤ 65535

instance (t : List Char) : Decidable (IsPortToken t) := by
  unfold IsPortToken; infer_instance

/-- The tokens written one after the other with a comma between them. -/
def commaList : List (List Char) → List Char
  | [] => []
  | [t] => t
  | t :: u :: ts => t ++ ',' :: commaList (u :: ts)

/-- The port is an integer within [1, 65535]. -/
def isValidPort : JSNum → Bool
  | JSNum.int n => decide (1 ≤ n) && decide (n ≤ 65535)
  | JSNum.nan => false

/-! ## Example inputs -/

/-- The scanner of the example: ports 80, 22, 443 in batches of two. -/
def exampleScanner : XillenNetworkScanner :=
  XillenNetworkScanner.new
    { target := "host", ports := some [80, 22, 443], timeout := none, threads := some 2,
      output := none }

/-- The probe oracle of the example: only 22 and 443 are open. -/
def exampleOpen (port : JSNum) : Bool := port == 22 || port == 443

/-- The options of a scanner with the given ports and concurrency limit. -/
def optionsWith (ports : List JSNum) (threads : JSNum) : Options :=
  { target := "host", ports := some ports, timeout := none, threads := some threads,
    output := none }

/-- The command-line options with the given port option and the defaults for
the rest. -/
def cliWith (ports : String) : CliOptions :=
  { ports := some ports, timeout := "1000", threads := "100", output := none, quick := false }

/-- The scanner that the action builds for the port option `80,80`. -/
def duplicateScanner : XillenNetworkScanner :=
  XillenNetworkScanner.new
    { target := "host", ports := some [80, 80], timeout := some 1000, threads := some 100,
      output := none }

/-- The record of the example with the given version. -/
def sshRecord (version : String) : ServiceRecord :=
  { port := 22, service := some "SSH", version := version, banner := none, details := none }

/-- The capture oracle of the example: port 22 sends the banner of an OpenSSH
7.2 server, every other port ends with a socket error. -/
def exampleCapture (port : JSNum) : Capture :=
  if port = 22 then Capture.timeout "SSH-2.0-OpenSSH_7.2\r\n" else Capture.error

/-- The command-line options with the given port option, timeout and threads. -/
def cliFull (ports : Option String) (timeout threads : String) : CliOptions :=
  { ports := ports, timeout := timeout, threads := threads, output := none, quick := false }

/-! ## Lemmas on the port scan -/

theorem jsSlice_nat {α : Type} (a : List α) (i n : Nat) :
    jsSlice a (i : Int) ((i : Int) + (n : Int)) = (a.drop i).take n := by
  have h1 : ¬ ((i : Int) < 0) := by omega
  have h2 : ¬ ((i : Int) + (n : Int) < 0) := by omega
  simp only [jsSlice, h1, h2, if_false]
  by_cases h : i ≤ a.length
  · have e1 : (min (i : Int) (a.length : Int)).toNat = i := by omega
    rw [e1, List.take_eq_take]
    simp only [List.length_drop]
    omega
  · have e1 : (min (i : Int) (a.length : Int)).toNat = a.length := by omega
    rw [e1]
    have d1 : a.drop a.length = [] := List.drop_length a
    have d2 : a.drop i = [] := List.drop_eq_nil_of_le (by omega)
    rw [d1, d2]; simp

theorem chunkArrayLoop_spec {α : Type} (array : List α) (n : Nat) (hn : 0 < n) :
    ∀ (fuel i : Nat) (chunks : List (List α)), array.length - i < fuel →
      ∃ tail, chunkArrayLoop array (n : Int) fuel (i : Int) chunks = some (chunks ++ tail) ∧
        tail.flatten = array.drop i ∧
        (∀ b ∈ tail, 0 < b.length ∧ b.length ≤ n) ∧
        (∀ b ∈ tail.dropLast, b.length = n) ∧
        (array.length ≤ i → tail = []) := by
  intro fuel
  induction fuel with
  | zero => intro i chunks h; omega
  | succ fuel ih =>
    intro i chunks h
    by_cases hi : i < array.length
    · have hi' : (i : Int) < (array.length : Int) := by exact_mod_cast hi
      obtain ⟨tail, ht, hj, hlen, hlast, hnil⟩ :=
        ih (i + n) (chunks ++ [(array.drop i).take n]) (by omega)
      refine ⟨(array.drop i).take n :: tail, ?_, ?_, ?_, ?_, ?_⟩
      · rw [chunkArrayLoop, if_pos hi', jsSlice_nat]
        have : ((i : Int) + (n : Int)) = ((i + n : Nat) : Int) := by push_cast; rfl
        rw [this, ht]; simp
      · rw [List.flatten_cons, hj, ← List.drop_drop, List.take_append_drop]
      · intro b hb
        rcases List.mem_cons.1 hb with rfl | hb
        · simp only [List.length_take, List.length_drop]; omega
        · exact hlen b hb
      · intro b hb
        cases tail with
        | nil => simp at hb
        | cons t ts =>
          rw [List.dropLast_cons₂] at hb
          rcases List.mem_cons.1 hb with rfl | hb
          · have : ¬ array.length ≤ i + n := fun hle => by simpa using hnil hle
            simp only [List.length_take, List.length_drop]; omega
          · exact hlast b hb
      · intro hle; omega
    · have hi' : ¬ (i : Int) < (array.length : Int) := by exact_mod_cast hi
      refine ⟨[], ?_, ?_, ?_, ?_, ?_⟩
      · rw [chunkArrayLoop, if_neg hi']; simp
      · simp; omega
      · simp
      · simp
      · intro _; rfl

theorem chunkArray_spec {α : Type} (array : List α) (k : Int) (hk : 1 ≤ k) (fuel : Nat)
    (hf : array.length < fuel) :
    ∃ batches, chunkArray fuel array k = some batches ∧
      batches.flatten = array ∧
      (∀ b ∈ batches, 1 ≤ b.length ∧ (b.length : Int) ≤ k) ∧
      (∀ b ∈ batches.dropLast, (b.length : Int) = k) ∧
      (array = [] → batches = []) := by
  obtain ⟨n, rfl⟩ : ∃ n : Nat, k = (n : Int) := ⟨k.toNat, by omega⟩
  have hn : 0 < n := by omega
  obtain ⟨tail, ht, hj, hlen, hlast, hnil⟩ :=
    chunkArrayLoop_spec array n hn fuel 0 [] (by omega)
  refine ⟨tail, ?_, ?_, ?_, ?_, ?_⟩
  · simpa [chunkArray] using ht
  · simpa using hj
  · intro b hb
    have := hlen b hb
    exact ⟨this.1, by exact_mod_cast this.2⟩
  · intro b hb
    exact_mod_cast hlast b hb
  · intro h; apply hnil; simp [h]

theorem chunkArrayLoop_diverges {α : Type} (array : List α) (chunkSize : Int) (hk : chunkSize ≤ 0) :
    ∀ (fuel : Nat) (i : Int) (chunks : List (List α)), i < (array.length : Int) →
      chunkArrayLoop array chunkSize fuel i chunks = none := by
  intro fuel
  induction fuel with
  | zero => intro i chunks _; rfl
  | succ fuel ih =>
    intro i chunks hi
    rw [chunkArrayLoop, if_pos hi]
    exact ih _ _ (by omega)

theorem collectOpen_eq (st : ScanState) (results : List PortResult) :
    collectOpen st results =
      { openPorts := st.openPorts ++ results.filter (fun r => decide (r.status = Status.open))
        resultsOpenPorts :=
          st.resultsOpenPorts ++ results.filter (fun r => decide (r.status = Status.open))
        probed := st.probed } := by
  induction results generalizing st with
  | nil => simp [collectOpen]
  | cons r rs ih =>
    have step : collectOpen st (r :: rs) =
        collectOpen (if r.status = Status.open then
          { st with
            openPorts := st.openPorts ++ [r]
            resultsOpenPorts := st.resultsOpenPorts ++ [r] } else st) rs := rfl
    rw [step, ih]
    by_cases h : r.status = Status.open <;> simp [h]

theorem filter_open_map_probeResult (isOpen : JSNum → Bool) (batch : List JSNum) :
    (batch.map (probeResult isOpen)).filter (fun r => decide (r.status = Status.open)) =
      (batch.filter isOpen).map openResult := by
  induction batch with
  | nil => rfl
  | cons p ps ih =>
    by_cases h : isOpen p = true
    · simp [probeResult, h, openResult, ih]
    · simp [probeResult, h, ih]

theorem scanPort_of_socketPort (isOpen : JSNum → Bool) (port : JSNum)
    (h : isSocketPort port = true) : scanPort isOpen port = some (probeResult isOpen port) := by
  by_cases ho : isOpen port = true
  · simp [scanPort, probeResult, openResult, h, ho]
  · simp [scanPort, probeResult, h, ho]

theorem promiseAll_map_scanPort (isOpen : JSNum → Bool) (batch : List JSNum)
    (h : ∀ p ∈ batch, isSocketPort p = true) :
    promiseAll (batch.map (scanPort isOpen)) = some (batch.map (probeResult isOpen)) := by
  induction batch with
  | nil => rfl
  | cons p ps ih =>
    rw [List.map_cons, scanPort_of_socketPort isOpen p (h p (by simp)), promiseAll,
      ih (fun x hx => h x (by simp [hx]))]
    rfl

theorem scanBatch_eq (isOpen : JSNum → Bool) (st : ScanState) (batch : List JSNum)
    (h : ∀ p ∈ batch, isSocketPort p = true) :
    scanBatch isOpen st batch = some
      { openPorts := st.openPorts ++ (batch.filter isOpen).map openResult
        resultsOpenPorts := st.resultsOpenPorts ++ (batch.filter isOpen).map openResult
        probed := st.probed ++ [batch] } := by
  simp [scanBatch, promiseAll_map_scanPort isOpen batch h, collectOpen_eq,
    filter_open_map_probeResult]

theorem scanBatches_eq (isOpen : JSNum → Bool) (batches : List (List JSNum)) (st : ScanState)
    (h : ∀ b ∈ batches, ∀ p ∈ b, isSocketPort p = true) :
    scanBatches isOpen st batches = some
      { openPorts := st.openPorts ++ (batches.flatten.filter isOpen).map openResult
        resultsOpenPorts :=
          st.resultsOpenPorts ++ (batches.flatten.filter isOpen).map openResult
        probed := st.probed ++ batches } := by
  induction batches generalizing st with
  | nil => simp [scanBatches]
  | cons b bs ih =>
    rw [scanBatches, scanBatch_eq isOpen st b (h b (by simp))]
    simp only
    rw [ih _ (fun x hx => h x (by simp [hx]))]
    simp [List.append_assoc]

theorem scanPortsState_spec (s : XillenNetworkScanner) (isOpen : JSNum → Bool) (fuel : Nat)
    (hk : 1 ≤ s.threads) (hf : s.ports.length < fuel)
    (hv : ∀ p ∈ s.ports, isSocketPort p = true) :
    ∃ batches, chunkArray fuel s.ports s.threads = some batches ∧
      scanPortsState fuel isOpen s = some
        { openPorts := (s.ports.filter isOpen).map openResult
          resultsOpenPorts := s.results.openPorts ++ (s.ports.filter isOpen).map openResult
          probed := batches } := by
  obtain ⟨batches, hb, hj, -⟩ := chunkArray_spec s.ports s.threads hk fuel hf
  refine ⟨batches, hb, ?_⟩
  have hvb : ∀ b ∈ batches, ∀ p ∈ b, isSocketPort p = true := by
    intro b hb' p hp
    apply hv
    rw [← hj]
    exact List.mem_flatten.2 ⟨b, hb', hp⟩
  simp [scanPortsState, hb, scanBatches_eq isOpen batches _ hvb, hj]

/-! ## Lemmas on strings and patterns -/

theorem includesL_iff (s pat : List Char) : includesL s pat = true ↔ pat <:+: s := by
  induction s with
  | nil => simp [includesL, List.isEmpty_iff]
  | cons c s ih =>
    rw [includesL, Bool.or_eq_true, ih, List.isPrefixOf_iff_prefix, List.infix_cons_iff]

theorem firstMatch_of_first {β : Type} (m : List Char → Option β) (r : β) :
    ∀ (pre suf : List Char), m suf = some r →
      (∀ pre' suf', pre ++ suf = pre' ++ suf' → pre'.length < pre.length → m suf' = none) →
      firstMatch m (pre ++ suf) = some r := by
  intro pre
  induction pre with
  | nil =>
    intro suf hm _
    cases suf with
    | nil => simpa [firstMatch] using hm
    | cons c cs => simp [firstMatch, hm]
  | cons a pre ih =>
    intro suf hm hfirst
    have h0 : m (a :: (pre ++ suf)) = none := hfirst [] (a :: (pre ++ suf)) rfl (by simp)
    have hrec : firstMatch m (pre ++ suf) = some r := by
      apply ih suf hm
      intro pre' suf' he hl
      exact hfirst (a :: pre') suf' (by simp [he]) (by simpa using hl)
    show firstMatch m (a :: (pre ++ suf)) = some r
    rw [firstMatch, h0]
    exact hrec

theorem firstMatch_some_split {β : Type} (m : List Char → Option β) (r : β) :
    ∀ s : List Char, firstMatch m s = some r → ∃ pre suf, s = pre ++ suf ∧ m suf = some r := by
  intro s
  induction s with
  | nil => intro h; exact ⟨[], [], rfl, by simpa [firstMatch] using h⟩
  | cons c s ih =>
    intro h
    rw [firstMatch] at h
    cases hm : m (c :: s) with
    | some r' =>
      rw [hm] at h
      exact ⟨[], c :: s, rfl, by rw [hm]; exact h⟩
    | none =>
      rw [hm] at h
      obtain ⟨pre, suf, he, hs⟩ := ih h
      exact ⟨c :: pre, suf, by simp [he], hs⟩

theorem firstMatch_none_of_all {β : Type} (m : List Char → Option β) :
    ∀ s : List Char, (∀ pre suf, s = pre ++ suf → m suf = none) → firstMatch m s = none := by
  intro s h
  cases hf : firstMatch m s with
  | none => rfl
  | some r =>
    obtain ⟨pre, suf, he, hs⟩ := firstMatch_some_split m r s hf
    rw [h pre suf he] at hs
    cases hs


theorem takeWhile_digits_append (d x : List Char) (hd : ∀ c ∈ d, isDigit c = true) :
    (d ++ x).takeWhile isDigit = d ++ x.takeWhile isDigit ∧
      (d ++ x).dropWhile isDigit = x.dropWhile isDigit :=
  ⟨List.takeWhile_append_of_pos hd, List.dropWhile_append_of_pos hd⟩

theorem noDigitAhead_takeWhile (rest : List Char) (h : NoDigitAhead rest) :
    rest.takeWhile isDigit = [] := by
  cases rest with
  | nil => rfl
  | cons c cs =>
    have := h c rfl
    simp [List.takeWhile_cons, this]

theorem matchMajorMinor_of_occurrence (d1 d2 rest : List Char) (h : IsMajorMinor d1 d2) :
    matchMajorMinor (d1 ++ '.' :: (d2 ++ rest)) =
      some (d1 ++ '.' :: (d2 ++ rest.takeWhile isDigit)) := by
  obtain ⟨h1, h2, hd1, hd2⟩ := h
  have hdot : isDigit '.' = false := by decide
  have t1 : (d1 ++ '.' :: (d2 ++ rest)).takeWhile isDigit = d1 := by
    rw [(takeWhile_digits_append d1 _ hd1).1, List.takeWhile_cons, hdot]; simp
  have t2 : (d1 ++ '.' :: (d2 ++ rest)).dropWhile isDigit = '.' :: (d2 ++ rest) := by
    rw [(takeWhile_digits_append d1 _ hd1).2, List.dropWhile_cons, hdot]; simp
  have t3 : (d2 ++ rest).takeWhile isDigit = d2 ++ rest.takeWhile isDigit :=
    (takeWhile_digits_append d2 rest hd2).1
  have ne2 : d2 ++ rest.takeWhile isDigit ≠ [] := by
    intro h; exact h2 (List.append_eq_nil.1 h).1
  simp only [matchMajorMinor, t1, t2, List.drop_succ_cons, List.drop_zero, t3, List.head?_cons]
  rw [if_pos ⟨h1, trivial, ne2⟩]

theorem matchMajorMinor_some (s r : List Char) (h : matchMajorMinor s = some r) :
    ∃ d1 d2 rest, s = d1 ++ '.' :: (d2 ++ rest) ∧ IsMajorMinor d1 d2 ∧ NoDigitAhead rest ∧
      r = d1 ++ '.' :: d2 := by
  unfold matchMajorMinor at h
  simp only at h
  split_ifs at h with hc
  obtain ⟨h1, hdot, h2⟩ := hc
  have hr1 : s.dropWhile isDigit = '.' :: (s.dropWhile isDigit).drop 1 := by
    cases hx : s.dropWhile isDigit with
    | nil => rw [hx] at hdot; simp at hdot
    | cons c cs => rw [hx] at hdot; simp at hdot; simp [hdot]
  refine ⟨s.takeWhile isDigit, ((s.dropWhile isDigit).drop 1).takeWhile isDigit,
    ((s.dropWhile isDigit).drop 1).dropWhile isDigit, ?_, ⟨h1, h2, ?_, ?_⟩, ?_, ?_⟩
  · rw [List.takeWhile_append_dropWhile, ← hr1, List.takeWhile_append_dropWhile]
  · intro c hc; exact List.mem_takeWhile_imp hc
  · intro c hc; exact List.mem_takeWhile_imp hc
  · intro c hc
    have := List.head?_dropWhile_not isDigit ((s.dropWhile isDigit).drop 1)
    rw [hc] at this
    simpa using this
  · exact (Option.some.inj h).symm

theorem matchKeyed_of_occurrence (key d1 d2 rest : List Char) (h : IsMajorMinor d1 d2) :
    matchKeyed key (key ++ (d1 ++ '.' :: (d2 ++ rest))) =
      some (d1 ++ '.' :: (d2 ++ rest.takeWhile isDigit)) := by
  have hp : key.isPrefixOf (key ++ (d1 ++ '.' :: (d2 ++ rest))) = true := by
    rw [List.isPrefixOf_iff_prefix]; exact List.prefix_append _ _
  rw [matchKeyed, if_pos hp, List.drop_left]
  exact matchMajorMinor_of_occurrence d1 d2 rest h

theorem matchKeyed_some (key s r : List Char) (h : matchKeyed key s = some r) :
    ∃ d1 d2 rest, s = key ++ (d1 ++ '.' :: (d2 ++ rest)) ∧ IsMajorMinor d1 d2 ∧
      NoDigitAhead rest ∧ r = d1 ++ '.' :: d2 := by
  unfold matchKeyed at h
  split_ifs at h with hp
  rw [List.isPrefixOf_iff_prefix] at hp
  obtain ⟨d1, d2, rest, hs, hmm, hnd, hr⟩ := matchMajorMinor_some _ _ h
  refine ⟨d1, d2, rest, ?_, hmm, hnd, hr⟩
  rw [← hs]
  exact (List.prefix_iff_eq_append.1 hp).symm

theorem firstMatch_of_firstVersion (key s d1 d2 : List Char) (h : FirstVersion key s d1 d2) :
    firstMatch (matchKeyed key) s = some (d1 ++ '.' :: d2) := by
  obtain ⟨pre, rest, hs, hmm, hnd, hfirst⟩ := h
  subst hs
  apply firstMatch_of_first
  · rw [matchKeyed_of_occurrence key d1 d2 rest hmm, noDigitAhead_takeWhile rest hnd]; simp
  · intro pre' suf' he hl
    cases hm : matchKeyed key suf' with
    | none => rfl
    | some r' =>
      obtain ⟨e1, e2, rest', hs', hmm', -, -⟩ := matchKeyed_some key suf' r' hm
      have := hfirst pre' e1 e2 rest' (by rw [he, hs']) hmm'
      omega

theorem firstMatch_of_noVersion (key s : List Char) (h : NoVersion key s) :
    firstMatch (matchKeyed key) s = none := by
  apply firstMatch_none_of_all
  intro pre suf he
  cases hm : matchKeyed key suf with
  | none => rfl
  | some r' =>
    obtain ⟨e1, e2, rest', hs', hmm', -, -⟩ := matchKeyed_some key suf r' hm
    exact absurd (by rw [he, hs']) (h pre e1 e2 rest' hmm')

theorem matchSsh_eq : matchSsh = matchKeyed "SSH-".data := by
  funext s; rfl

theorem matchMajorMinor_eq : matchMajorMinor = matchKeyed [] := by
  funext s; simp [matchKeyed]


theorem takeWhile_cons_split (p : Char → Bool) (x : List Char) (c : Char) (cs : List Char)
    (h : x.takeWhile p = c :: cs) : ∃ rest, x = c :: rest ∧ p c = true := by
  cases x with
  | nil => simp at h
  | cons a as =>
    rw [List.takeWhile_cons] at h
    by_cases hp : p a = true
    · rw [if_pos hp] at h
      have : a = c := (List.cons.inj h).1
      subst this
      exact ⟨as, rfl, hp⟩
    · rw [if_neg hp] at h; cases h

theorem matchServer_some (s r : List Char) (h : matchServer s = some r) :
    (∃ key c rest, s = key ++ c :: rest ∧ key.map foldCase = "server: ".data ∧
      notCRLF c = true) ∧ r <:+: s := by
  unfold matchServer at h
  split_ifs at h with hk
  cases ht : (s.drop 8).takeWhile notCRLF with
  | nil => rw [ht] at h; cases h
  | cons c cs =>
    rw [ht] at h
    obtain ⟨rest, hr, hc⟩ := takeWhile_cons_split notCRLF _ c cs ht
    refine ⟨⟨s.take 8, c, rest, ?_, hk, hc⟩, ?_⟩
    · rw [← hr, List.take_append_drop]
    · have h1 : r <+: s.drop 8 := by
        rw [← Option.some.inj h, ← ht]; exact List.takeWhile_prefix _
      exact h1.isInfix.trans (List.drop_suffix 8 s).isInfix

theorem match220_some (s r : List Char) (h : match220 s = some r) :
    (∃ c rest, s = "220 ".data ++ c :: rest ∧ notCRLF c = true) ∧ r <:+: s := by
  unfold match220 at h
  split_ifs at h with hk
  rw [List.isPrefixOf_iff_prefix] at hk
  cases ht : (s.drop 4).takeWhile notCRLF with
  | nil => rw [ht] at h; cases h
  | cons c cs =>
    rw [ht] at h
    obtain ⟨rest, hr, hc⟩ := takeWhile_cons_split notCRLF _ c cs ht
    refine ⟨⟨c, rest, ?_, hc⟩, ?_⟩
    · rw [← hr]; exact (List.prefix_iff_eq_append.1 hk).symm
    · have h1 : r <+: s.drop 4 := by
        rw [← Option.some.inj h, ← ht]; exact List.takeWhile_prefix _
      exact h1.isInfix.trans (List.drop_suffix 4 s).isInfix

theorem firstMatch_within (m : List Char → Option (List Char))
    (hm : ∀ s r, m s = some r → r <:+: s) (s r : List Char) (h : firstMatch m s = some r) :
    r <:+: s := by
  obtain ⟨pre, suf, he, hs⟩ := firstMatch_some_split m r s h
  rw [he]
  exact (hm suf r hs).trans (List.suffix_append pre suf).isInfix

theorem firstMatch_matchServer_of_none (s : List Char) (h : NoServerHeader s) :
    firstMatch matchServer s = none := by
  apply firstMatch_none_of_all
  intro pre suf he
  cases hm : matchServer suf with
  | none => rfl
  | some r =>
    obtain ⟨⟨key, c, rest, hs, hk, hc⟩, -⟩ := matchServer_some suf r hm
    exact absurd (by rw [he, hs]) (h pre key c rest hk hc)

theorem firstMatch_match220_of_none (s : List Char) (h : NoReply220 s) :
    firstMatch match220 s = none := by
  apply firstMatch_none_of_all
  intro pre suf he
  cases hm : match220 suf with
  | none => rfl
  | some r =>
    obtain ⟨⟨c, rest, hs, hc⟩, -⟩ := match220_some suf r hm
    exact absurd (by rw [he, hs]) (h pre c rest hc)

theorem no_openssh_within (banner m : List Char) (hb : includesL banner "SSH".data = false)
    (hm : m <:+: banner) : includesL m "OpenSSH".data = false := by
  cases hi : includesL m "OpenSSH".data with
  | false => rfl
  | true =>
    have h1 : "OpenSSH".data <:+: m := (includesL_iff _ _).1 hi
    have h2 : "SSH".data <:+: "OpenSSH".data := (includesL_iff _ _).1 (by decide)
    have h3 : includesL banner "SSH".data = true := (includesL_iff _ _).2 ((h2.trans h1).trans hm)
    rw [hb] at h3; cases h3

theorem ssh_version_no_openssh (d1 d2 : List Char) (h : IsMajorMinor d1 d2) :
    includesL ("SSH ".data ++ (d1 ++ '.' :: d2)) "OpenSSH".data = false := by
  cases hi : includesL ("SSH ".data ++ (d1 ++ '.' :: d2)) "OpenSSH".data with
  | false => rfl
  | true =>
    have h1 : "OpenSSH".data <:+: "SSH ".data ++ (d1 ++ '.' :: d2) := (includesL_iff _ _).1 hi
    have hO : 'O' ∈ "SSH ".data ++ (d1 ++ '.' :: d2) := h1.subset (by decide)
    obtain ⟨-, -, hd1, hd2⟩ := h
    have nd : isDigit 'O' = false := by decide
    rcases List.mem_append.1 hO with hO | hO
    · exact absurd hO (by decide)
    · rcases List.mem_append.1 hO with hO | hO
      · rw [hd1 _ hO] at nd; cases nd
      · rcases List.mem_cons.1 hO with hO | hO
        · exact absurd hO (by decide)
        · rw [hd2 _ hO] at nd; cases nd

theorem parseVersionL_no_openssh (banner : List Char) :
    includesL (parseVersionL banner) "OpenSSH".data = false := by
  have hu : includesL "Unknown".data "OpenSSH".data = false := by decide
  unfold parseVersionL
  split_ifs with h1 h2 h3
  · cases hm : firstMatch matchSsh banner with
    | none => simpa using hu
    | some m =>
      obtain ⟨pre, suf, -, hs⟩ := firstMatch_some_split _ _ _ hm
      rw [matchSsh_eq] at hs
      obtain ⟨d1, d2, rest, -, hmm, -, hr⟩ := matchKeyed_some _ _ _ hs
      subst hr
      exact ssh_version_no_openssh d1 d2 hmm
  · have hb : includesL banner "SSH".data = false := by simpa using h1
    cases hm : firstMatch matchServer banner with
    | none => simpa using hu
    | some m =>
      exact no_openssh_within banner m hb
        (firstMatch_within _ (fun s r h => (matchServer_some s r h).2) _ _ hm)
  · have hb : includesL banner "SSH".data = false := by simpa using h1
    cases hm : firstMatch match220 banner with
    | none => simpa using hu
    | some m =>
      exact no_openssh_within banner m hb
        (firstMatch_within _ (fun s r h => (match220_some s r h).2) _ _ hm)
  · exact hu

theorem trimL_spec (s : List Char) :
    ∃ pre suf, s = pre ++ (trimL s ++ suf) ∧ (∀ c ∈ pre, isJsSpace c = true) ∧
      (∀ c ∈ suf, isJsSpace c = true) ∧
      (∀ c, (trimL s).head? = some c → isJsSpace c = false) ∧
      (∀ c, (trimL s).getLast? = some c → isJsSpace c = false) := by
  have hb : (s.dropWhile isJsSpace).reverse =
      (s.dropWhile isJsSpace).reverse.takeWhile isJsSpace ++
        (s.dropWhile isJsSpace).reverse.dropWhile isJsSpace :=
    (List.takeWhile_append_dropWhile _ _).symm
  have hb' : s.dropWhile isJsSpace =
      trimL s ++ ((s.dropWhile isJsSpace).reverse.takeWhile isJsSpace).reverse := by
    have := congrArg List.reverse hb
    rw [List.reverse_reverse, List.reverse_append] at this
    exact this
  refine ⟨s.takeWhile isJsSpace,
    ((s.dropWhile isJsSpace).reverse.takeWhile isJsSpace).reverse, ?_, ?_, ?_, ?_, ?_⟩
  · rw [← hb', List.takeWhile_append_dropWhile]
  · intro c hc; exact List.mem_takeWhile_imp hc
  · intro c hc; exact List.mem_takeWhile_imp (List.mem_reverse.1 hc)
  · intro c hc
    have h1 := List.head?_dropWhile_not isJsSpace s
    rw [hb'] at h1
    cases ht : trimL s with
    | nil => rw [ht] at hc; cases hc
    | cons a as =>
      rw [ht] at hc h1
      simp only [List.head?_cons, List.cons_append] at hc h1
      rw [← Option.some.inj hc]
      simpa using h1
  · intro c hc
    have h1 := List.head?_dropWhile_not isJsSpace (s.dropWhile isJsSpace).reverse
    have h2 : (trimL s).getLast? = ((s.dropWhile isJsSpace).reverse.dropWhile isJsSpace).head? := by
      rw [trimL, List.getLast?_reverse]
    rw [h2] at hc
    rw [hc] at h1
    simpa using h1


theorem firstMatch_some_first {β : Type} (m : List Char → Option β) (r : β) :
    ∀ s : List Char, firstMatch m s = some r →
      ∃ pre suf, s = pre ++ suf ∧ m suf = some r ∧
        ∀ pre' suf', s = pre' ++ suf' → pre'.length < pre.length → m suf' = none := by
  intro s
  induction s with
  | nil =>
    intro h
    exact ⟨[], [], rfl, by simpa [firstMatch] using h, fun _ _ _ hl => by simp at hl⟩
  | cons c s ih =>
    intro h
    rw [firstMatch] at h
    cases hm : m (c :: s) with
    | some r' =>
      rw [hm] at h
      exact ⟨[], c :: s, rfl, by rw [hm]; exact h, fun _ _ _ hl => by simp at hl⟩
    | none =>
      rw [hm] at h
      obtain ⟨pre, suf, he, hs, hfirst⟩ := ih h
      refine ⟨c :: pre, suf, by simp [he], hs, ?_⟩
      intro pre' suf' he' hl
      cases pre' with
      | nil =>
        simp only [List.nil_append] at he'
        rw [← he']; exact hm
      | cons a as =>
        simp only [List.cons_append, List.cons.injEq] at he'
        exact hfirst as suf' he'.2 (by simpa using hl)

theorem firstMatch_none_all {β : Type} (m : List Char → Option β) :
    ∀ s : List Char, firstMatch m s = none → ∀ pre suf, s = pre ++ suf → m suf = none := by
  intro s h pre suf he
  cases hm : m suf with
  | none => rfl
  | some r =>
    subst he
    -- some earlier or equal position matches, so the search cannot fail
    have key : ∀ (p : List Char), ∃ r', firstMatch m (p ++ suf) = some r' := by
      intro p
      induction p with
      | nil =>
        cases suf with
        | nil => exact ⟨r, by simpa [firstMatch] using hm⟩
        | cons c cs => exact ⟨r, by simp [firstMatch, hm]⟩
      | cons a p ih =>
        obtain ⟨r', hr'⟩ := ih
        show ∃ r', firstMatch m (a :: (p ++ suf)) = some r'
        rw [firstMatch]
        cases m (a :: (p ++ suf)) with
        | none => exact ⟨r', hr'⟩
        | some x => exact ⟨x, rfl⟩
    obtain ⟨r', hr'⟩ := key pre
    rw [h] at hr'; cases hr'

theorem dot_split_unique (d1 d2 e1 e2 : List Char) (hd : ∀ c ∈ d1, isDigit c = true)
    (he : ∀ c ∈ e1, isDigit c = true) (h : d1 ++ '.' :: d2 = e1 ++ '.' :: e2) :
    d1 = e1 ∧ d2 = e2 := by
  have hdot : isDigit '.' = false := by decide
  induction d1 generalizing e1 with
  | nil =>
    cases e1 with
    | nil => simpa using h
    | cons c cs =>
      simp only [List.nil_append, List.cons_append, List.cons.injEq] at h
      have := he c (by simp)
      rw [← h.1, hdot] at this; cases this
  | cons a as ih =>
    cases e1 with
    | nil =>
      simp only [List.nil_append, List.cons_append, List.cons.injEq] at h
      have := hd a (by simp)
      rw [h.1, hdot] at this; cases this
    | cons c cs =>
      simp only [List.cons_append, List.cons.injEq] at h
      obtain ⟨h1, h2⟩ := ih cs (fun x hx => hd x (by simp [hx])) (fun x hx => he x (by simp [hx])) h.2
      exact ⟨by rw [h.1, h1], h2⟩

theorem firstVersion_of_firstMatch (key s d1 d2 : List Char)
    (h : firstMatch (matchKeyed key) s = some (d1 ++ '.' :: d2)) (hmm : IsMajorMinor d1 d2) :
    FirstVersion key s d1 d2 := by
  obtain ⟨pre, suf, he, hs, hfirst⟩ := firstMatch_some_first _ _ _ h
  obtain ⟨e1, e2, rest, hsuf, hmm', hnd, hr⟩ := matchKeyed_some key suf _ hs
  obtain ⟨h1, h2⟩ := dot_split_unique d1 d2 e1 e2 hmm.2.2.1 hmm'.2.2.1 hr
  subst h1; subst h2
  refine ⟨pre, rest, by rw [he, hsuf], hmm, hnd, ?_⟩
  intro pre' f1 f2 rest' he' hmm''
  by_contra hlt
  have := hfirst pre' _ he' (by omega)
  rw [matchKeyed_of_occurrence key f1 f2 rest' hmm''] at this
  cases this

theorem noVersion_of_firstMatch (key s : List Char) (h : firstMatch (matchKeyed key) s = none) :
    NoVersion key s := by
  intro pre d1 d2 rest hmm he
  have := firstMatch_none_all _ _ h pre _ he
  rw [matchKeyed_of_occurrence key d1 d2 rest hmm] at this
  cases this

theorem parseFloat_majorMinor (d1 d2 : List Char) (h : IsMajorMinor d1 d2) :
    parseFloat (d1 ++ '.' :: d2) = decimalDouble d1 d2 := by
  obtain ⟨h1, h2, hd1, hd2⟩ := h
  have hdot : isDigit '.' = false := by decide
  have t1 : (d1 ++ '.' :: d2).takeWhile isDigit = d1 := by
    rw [(takeWhile_digits_append d1 _ hd1).1, List.takeWhile_cons, hdot]; simp
  have t2 : (d1 ++ '.' :: d2).dropWhile isDigit = '.' :: d2 := by
    rw [(takeWhile_digits_append d1 _ hd1).2, List.dropWhile_cons, hdot]; simp
  have t3 : d2.takeWhile isDigit = d2 := by
    have := (takeWhile_digits_append d2 [] hd2).1
    simpa using this
  simp only [parseFloat, t1, t2, List.head?_cons, if_true, List.drop_succ_cons, List.drop_zero,
    t3, decimalDouble]
  rw [if_neg]
  exact fun hc => h1 hc.1

/-! ## Further lemmas -/

theorem scanPorts_spec (s : XillenNetworkScanner) (isOpen : JSNum → Bool) (fuel : Nat)
    (hk : 1 ≤ s.threads) (hf : s.ports.length < fuel)
    (hv : ∀ p ∈ s.ports, isSocketPort p = true) :
    scanPorts fuel isOpen s = some
      ((s.ports.filter isOpen).map openResult,
       { s with results := { s.results with
          openPorts := s.results.openPorts ++ (s.ports.filter isOpen).map openResult } }) := by
  obtain ⟨batches, -, hst⟩ := scanPortsState_spec s isOpen fuel hk hf hv
  simp [scanPorts, hst]

theorem promiseAll_rejects (isOpen : JSNum → Bool) (batch : List JSNum) (p : JSNum)
    (hp : p ∈ batch) (hb : isSocketPort p = false) :
    promiseAll (batch.map (scanPort isOpen)) = none := by
  induction batch with
  | nil => simp at hp
  | cons a as ih =>
    rw [List.map_cons]
    cases ha : scanPort isOpen a with
    | none => rfl
    | some r =>
      have hne : p ≠ a := by
        intro e
        subst e
        simp [scanPort, hb] at ha
      have hmem : p ∈ as := by
        rcases List.mem_cons.1 hp with h | h
        · exact absurd h hne
        · exact h
      rw [promiseAll, ih hmem]

theorem scanBatches_rejects (isOpen : JSNum → Bool) (batches : List (List JSNum)) (p : JSNum)
    (hp : p ∈ batches.flatten) (hb : isSocketPort p = false) (st : ScanState) :
    scanBatches isOpen st batches = none := by
  induction batches generalizing st with
  | nil => simp at hp
  | cons b bs ih =>
    rw [scanBatches]
    cases hsb : scanBatch isOpen st b with
    | none => rfl
    | some st1 =>
      have hnb : p ∉ b := by
        intro hin
        rw [scanBatch, promiseAll_rejects isOpen b p hin hb] at hsb
        cases hsb
      have hmem : p ∈ bs.flatten := by
        rw [List.flatten_cons, List.mem_append] at hp
        rcases hp with h | h
        · exact absurd h hnb
        · exact h
      exact ih hmem st1

/-- A port that fails the port check of the socket library ends the port scan
with an exception, whatever the other ports and the probe outcomes are. -/
theorem scanPorts_rejects_bad_port (s : XillenNetworkScanner) (isOpen : JSNum → Bool)
    (fuel : Nat) (p : JSNum) (hk : 1 ≤ s.threads) (hf : s.ports.length < fuel)
    (hp : p ∈ s.ports) (hb : isSocketPort p = false) :
    scanPorts fuel isOpen s = none := by
  obtain ⟨batches, hbt, hj, -⟩ := chunkArray_spec s.ports s.threads hk fuel hf
  have hst : scanPortsState fuel isOpen s = none := by
    simp only [scanPortsState, hbt]
    exact scanBatches_rejects isOpen batches p (by rw [hj]; exact hp) hb _
  simp [scanPorts, hst]

/-- A port that fails the port check of the socket library ends the port scan
with an exception: the port option `70000` gives a scan that does not return. -/
theorem scanPorts_bad_port_rejects :
    scanPorts 3 (fun _ => true)
        (XillenNetworkScanner.new (optionsWith [70000, 80] 1)) = none ∧
      scanPort (fun _ => true) 70000 = none := by
  decide

theorem map_port_openResult (ps : List JSNum) : (ps.map openResult).map (fun x => x.port) = ps := by
  induction ps with
  | nil => rfl
  | cons p ps ih => simp [openResult, ih]

/-- A chunk size of 0 or below never lets `chunkArray` return on a non-empty
array: the loop variable does not grow. -/
theorem chunkArray_nonpositive_never_returns {α : Type} (array : List α) (chunkSize : Int)
    (hk : chunkSize ≤ 0) (hne : array ≠ []) (fuel : Nat) :
    chunkArray fuel array chunkSize = none := by
  apply chunkArrayLoop_diverges array chunkSize hk
  have : 0 < array.length := List.length_pos.2 hne
  exact_mod_cast this

theorem foldl_append_eq {α β : Type} (f : α → List β) (l : List α) (init : List β) :
    l.foldl (fun acc x => acc ++ f x) init = init ++ (l.map f).flatten := by
  induction l generalizing init with
  | nil => simp
  | cons a l ih => rw [List.foldl_cons, ih]; simp [List.append_assoc]

theorem foldl_push_eq {α β : Type} (g : α → β) (l : List α) (init : List β) :
    l.foldl (fun acc x => acc ++ [g x]) init = init ++ l.map g := by
  induction l generalizing init with
  | nil => simp
  | cons a l ih => rw [List.foldl_cons, ih]; simp [List.append_assoc]

theorem checkVulnerabilities_without_openssh (service : ServiceRecord)
    (h : includes service.version "OpenSSH" = false) :
    ∀ f ∈ checkVulnerabilities service, f.cve ≠ "CVE-2018-15473" := by
  intro f hf
  simp only [checkVulnerabilities, h, Bool.false_eq_true, and_false, if_false,
    List.nil_append] at hf
  rcases List.mem_append.1 hf with hf | hf
  · split_ifs at hf with hc
    · cases hm : firstMatch matchMajorMinorPatch service.version.data with
      | none => rw [hm] at hf; simp at hf
      | some v =>
        rw [hm] at hf
        simp only at hf
        split_ifs at hf
        · rw [List.mem_singleton] at hf
          rw [hf]
          show "CVE-2017-15715" ≠ "CVE-2018-15473"
          decide
        · simp at hf
    · simp at hf
  · split_ifs at hf
    · rw [List.mem_singleton] at hf
      rw [hf]
      show "N/A" ≠ "CVE-2018-15473"
      decide
    · simp at hf

theorem serviceRecord_without_openssh (capture : JSNum → Capture) (portInfo : PortResult) :
    includes (serviceRecord capture portInfo).version "OpenSSH" = false := by
  have hu : includes "Unknown" "OpenSSH" = false := by decide
  unfold serviceRecord detectService
  cases capture portInfo.port with
  | timeout banner => exact parseVersionL_no_openssh banner.data
  | error => exact hu
  | rejected => exact hu

theorem run_vulnerabilities (fuel : Nat) (isOpen : JSNum → Bool) (capture : JSNum → Capture)
    (s0 s : XillenNetworkScanner) (h : run fuel isOpen capture s0 = some s) :
    ∃ found : List PortResult,
      s.results.vulnerabilities = s0.results.vulnerabilities ++
        ((s0.results.services ++ found.map (serviceRecord capture)).map
          checkVulnerabilities).flatten := by
  unfold run at h
  cases hsp : scanPorts fuel isOpen s0 with
  | none => rw [hsp] at h; cases h
  | some p =>
    obtain ⟨r, s1⟩ := p
    rw [hsp] at h
    simp only [Option.some.injEq] at h
    unfold scanPorts at hsp
    cases hst : scanPortsState fuel isOpen s0 with
    | none => rw [hst] at hsp; cases hsp
    | some st =>
      rw [hst] at hsp
      simp only [Option.some.injEq, Prod.mk.injEq] at hsp
      refine ⟨st.resultsOpenPorts, ?_⟩
      rw [← h, ← hsp.2]
      simp only [vulnerabilityScan, serviceDetection, foldl_push_eq]
      simp only [foldl_append_eq]

theorem digit_not_space (c : Char) (h : isDigit c = true) : isJsSpace c = false := by
  simp only [isDigit, Bool.and_eq_true, decide_eq_true_eq] at h
  simp only [isJsSpace, Bool.or_eq_false_iff, beq_eq_false_iff_ne, ne_eq, Bool.and_eq_false_imp,
    decide_eq_true_eq, decide_eq_false_iff_not]
  omega

theorem dropWhile_head_false (p : Char → Bool) (l : List Char)
    (h : ∀ c, l.head? = some c → p c = false) : l.dropWhile p = l := by
  cases l with
  | nil => rfl
  | cons a as => rw [List.dropWhile_cons, h a rfl]; simp

theorem trimL_digits (t : List Char) (hd : ∀ c ∈ t, isDigit c = true) : trimL t = t := by
  have h1 : t.dropWhile isJsSpace = t := by
    apply dropWhile_head_false
    intro c hc
    exact digit_not_space c (hd c (List.mem_of_mem_head? hc))
  have h2 : t.reverse.dropWhile isJsSpace = t.reverse := by
    apply dropWhile_head_false
    intro c hc
    exact digit_not_space c (hd c (List.mem_reverse.1 (List.mem_of_mem_head? hc)))
  rw [trimL, h1, h2, List.reverse_reverse]

theorem jsNumber_digits (t : List Char) (hne : t ≠ []) (hd : ∀ c ∈ t, isDigit c = true) :
    jsNumber t = JSNum.int (digitsVal t) := by
  have hplus : t.head? ≠ some '+' := by
    intro h
    have := hd '+' (List.mem_of_mem_head? h)
    exact absurd this (by decide)
  have hminus : t.head? ≠ some '-' := by
    intro h
    have := hd '-' (List.mem_of_mem_head? h)
    exact absurd this (by decide)
  have hall : t.all isDigit = true := List.all_eq_true.2 hd
  simp [jsNumber, trimL_digits t hd, hplus, hminus, hne, hall]

theorem splitL_of_not_mem (sep : Char) (t : List Char) (h : sep ∉ t) : splitL sep t = [t] := by
  induction t with
  | nil => rfl
  | cons c cs ih =>
    have hc : c ≠ sep := fun e => h (by simp [e])
    have hcs : sep ∉ cs := fun e => h (by simp [e])
    rw [splitL, if_neg hc, ih hcs]

theorem splitL_append (sep : Char) (t rest : List Char) (h : sep ∉ t) :
    splitL sep (t ++ sep :: rest) = t :: splitL sep rest := by
  induction t with
  | nil => simp [splitL]
  | cons c cs ih =>
    have hc : c ≠ sep := fun e => h (by simp [e])
    have hcs : sep ∉ cs := fun e => h (by simp [e])
    rw [List.cons_append, splitL, if_neg hc, ih hcs]

theorem splitL_commaList (tokens : List (List Char)) (hne : tokens ≠ [])
    (h : ∀ t ∈ tokens, ',' ∉ t) : splitL ',' (commaList tokens) = tokens := by
  induction tokens with
  | nil => exact absurd rfl hne
  | cons t ts ih =>
    cases ts with
    | nil => exact splitL_of_not_mem ',' t (h t (by simp))
    | cons u us =>
      rw [commaList, splitL_append ',' t _ (h t (by simp)),
        ih (by simp) (fun x hx => h x (by simp [hx]))]

theorem includesL_singleton (s : List Char) (c : Char) : includesL s [c] = true ↔ c ∈ s := by
  induction s with
  | nil => simp [includesL]
  | cons a as ih =>
    rw [includesL, Bool.or_eq_true, ih, List.mem_cons]
    constructor
    · rintro (h | h)
      · left
        have : c = a := by simpa [List.isPrefixOf] using h
        exact this
      · right; exact h
    · rintro (h | h)
      · left; subst h; simp [List.isPrefixOf]
      · right; exact h

theorem mem_commaList (tokens : List (List Char)) (c : Char) (h : c ∈ commaList tokens) :
    c = ',' ∨ ∃ t ∈ tokens, c ∈ t := by
  induction tokens with
  | nil => simp [commaList] at h
  | cons t ts ih =>
    cases ts with
    | nil => exact Or.inr ⟨t, by simp, h⟩
    | cons u us =>
      rw [commaList] at h
      rcases List.mem_append.1 h with h | h
      · exact Or.inr ⟨t, by simp, h⟩
      · rcases List.mem_cons.1 h with h | h
        · exact Or.inl h
        · rcases ih h with h | ⟨x, hx, hc⟩
          · exact Or.inl h
          · exact Or.inr ⟨x, by simp [List.mem_cons] at hx ⊢; tauto, hc⟩

theorem commaList_ne_nil (tokens : List (List Char)) (hne : tokens ≠ [])
    (h : ∀ t ∈ tokens, t ≠ []) : commaList tokens ≠ [] := by
  cases tokens with
  | nil => exact absurd rfl hne
  | cons t ts =>
    cases ts with
    | nil => exact h t (by simp)
    | cons u us =>
      rw [commaList]
      intro hc
      exact h t (by simp) (List.append_eq_nil.1 hc).1

theorem validPort_of_token (t : List Char) (h : IsPortToken t) :
    isValidPort (JSNum.int (digitsVal t)) = true := by
  have h1 := h.2.2.1
  have h2 := h.2.2.2
  simp only [isValidPort, Bool.and_eq_true, decide_eq_true_eq]
  omega

theorem action_ports (target : String) (options : CliOptions) (ps : Option (List JSNum))
    (h : parsePorts options = Except.ok ps) :
    action target options = Except.ok (XillenNetworkScanner.new
      { target := target
        ports := ps
        timeout := some (parseInt options.timeout.data)
        threads := some (parseInt options.threads.data)
        output := options.output }) := by
  simp only [action, h]

theorem parsePorts_commaList (options : CliOptions) (tokens : List (List Char))
    (hq : options.quick = false) (hp : options.ports = some (String.mk (commaList tokens)))
    (hne : tokens ≠ []) (ht : ∀ t ∈ tokens, IsPortToken t) :
    parsePorts options = Except.ok (some (tokens.map (fun t => JSNum.int (digitsVal t)))) := by
  have hnodash : includes (String.mk (commaList tokens)) "-" = false := by
    cases hi : includes (String.mk (commaList tokens)) "-" with
    | false => rfl
    | true =>
      have hm : '-' ∈ commaList tokens := (includesL_singleton _ _).1 hi
      rcases mem_commaList tokens '-' hm with h | ⟨t, htm, hc⟩
      · exact absurd h (by decide)
      · exact absurd ((ht t htm).2.1 '-' hc) (by decide)
  have hnonempty : String.mk (commaList tokens) ≠ "" := by
    intro h
    have := congrArg String.data h
    exact commaList_ne_nil tokens hne (fun t htm => (ht t htm).1) this
  have hsplit : splitL ',' (commaList tokens) = tokens := by
    apply splitL_commaList tokens hne
    intro t htm hc
    exact absurd ((ht t htm).2.1 ',' hc) (by decide)
  have hmap : tokens.map jsNumber = tokens.map (fun t => JSNum.int (digitsVal t)) := by
    apply List.map_congr_left
    intro t htm
    exact jsNumber_digits t (ht t htm).1 (ht t htm).2.1
  simp only [parsePorts, hq, hp, hnonempty, hnodash, hsplit, hmap]
  simp

theorem parsePorts_range (options : CliOptions) (ta tb : List Char)
    (hq : options.quick = false) (hp : options.ports = some (String.mk (ta ++ '-' :: tb)))
    (ha : IsPortToken ta) (hb : IsPortToken tb) (hab : digitsVal ta ≤ digitsVal tb) :
    parsePorts options = Except.ok (some ((List.range (digitsVal tb - digitsVal ta + 1)).map
      (fun i : Nat => JSNum.int ((digitsVal ta : Int) + (i : Int))))) := by
  have hdash : includes (String.mk (ta ++ '-' :: tb)) "-" = true :=
    (includesL_singleton _ _).2 (by simp)
  have hnonempty : String.mk (ta ++ '-' :: tb) ≠ "" := by
    intro h
    have := congrArg String.data h
    simp at this
  have hna : '-' ∉ ta := fun hc => absurd (ha.2.1 '-' hc) (by decide)
  have hnb : '-' ∉ tb := fun hc => absurd (hb.2.1 '-' hc) (by decide)
  have hsplit : splitL '-' (ta ++ '-' :: tb) = [ta, tb] := by
    rw [splitL_append '-' ta tb hna, splitL_of_not_mem '-' tb hnb]
  have hA := jsNumber_digits ta ha.1 ha.2.1
  have hB := jsNumber_digits tb hb.1 hb.2.1
  have hbound : ¬ ((2 : Int) ^ 32 - 1 < (digitsVal tb : Int) - (digitsVal ta : Int) + 1) := by
    have := hb.2.2.2
    have h32 : (2 : Int) ^ 32 = 4294967296 := by norm_num
    omega
  have hlen : ((digitsVal tb : Int) - (digitsVal ta : Int) + 1).toNat =
      digitsVal tb - digitsVal ta + 1 := by omega
  simp only [parsePorts, hq, hp, hnonempty, hdash, hsplit, List.map_cons, List.map_nil, hA, hB,
    List.getD_cons_zero, List.getD_cons_succ, rangePorts, hbound, hlen, if_false]
  rfl

theorem rangePorts_error (a b : JSNum) (e : String) (h : rangePorts a b = Except.error e) :
    e = "RangeError: Invalid array length" := by
  unfold rangePorts at h
  split at h
  · split_ifs at h
    injection h with h
    exact h.symm
  · cases h

theorem parsePorts_error (options : CliOptions) (e : String)
    (h : parsePorts options = Except.error e) : e = "RangeError: Invalid array length" := by
  unfold parsePorts at h
  split_ifs at h with hq
  split at h
  · cases h
  · split_ifs at h with h1 h2
    simp only at h
    split at h
    · cases h
    · rename_i e' he
      injection h with h
      rw [← h]
      exact rangePorts_error _ _ _ he

theorem action_error (target : String) (options : CliOptions) (e : String)
    (h : action target options = Except.error e) : e = "RangeError: Invalid array length" := by
  unfold action at h
  split at h
  · rename_i e' he
    injection h with h
    rw [← h]
    exact parsePorts_error options e' he
  · cases h

/-- A decimal fraction within half a unit in the last place of 7.4 is read as
the same double as the literal `7.4`. -/
theorem parseFloat_rounds_to_nearest :
    parseFloat "7.39999999999999999".data = roundDouble 74 10 ∧
      parseFloat "7.399999999999999".data ≠ roundDouble 74 10 := by
  decide

/-! ## The properties -/

/-- C1: for every scanner with a batch size of at least 1, every port list of
ports that the socket library accepts (integers within [0, 65535]) and every
probe oracle, `scanPorts` returns (given fuel above the number of ports)
exactly the result objects of the open ports, in the order of the port list:
the ports of the result are the port list filtered by the oracle, a closed port
never appears, and the same objects are appended to `results.openPorts`. -/
theorem scanPorts_returns_open_ports_in_input_order (s : XillenNetworkScanner)
    (isOpen : JSNum → Bool) (fuel : Nat) (hk : 1 ≤ s.threads) (hf : s.ports.length < fuel)
    (hv : ∀ p ∈ s.ports, isSocketPort p = true) :
    ∃ r s', scanPorts fuel isOpen s = some (r, s') ∧
      r = (s.ports.filter isOpen).map openResult ∧
      r.map (fun x => x.port) = s.ports.filter isOpen ∧
      (∀ p, isOpen p = false → p ∉ r.map (fun x => x.port)) ∧
      s'.results.openPorts = s.results.openPorts ++ r := by
  refine ⟨_, _, scanPorts_spec s isOpen fuel hk hf hv, rfl, map_port_openResult _, ?_, rfl⟩
  intro p hp hmem
  rw [map_port_openResult] at hmem
  have := (List.mem_filter.1 hmem).2
  rw [hp] at this; cases this

/-- C1, example: the ports 80, 22, 443 with only 22 and 443 open, scanned in
batches of two, give 22 and 443 in this order. -/
theorem scanPorts_order_witness :
    1 ≤ exampleScanner.threads ∧ exampleScanner.ports.length < 4 ∧
      (∀ p ∈ exampleScanner.ports, isSocketPort p = true) ∧
      ∃ r s', scanPorts 4 exampleOpen exampleScanner = some (r, s') ∧
        r.map (fun x => x.port) = [22, 443] := by
  refine ⟨by decide, by decide, by decide, ?_⟩
  obtain ⟨r, s', h, -, hp, -⟩ :=
    scanPorts_returns_open_ports_in_input_order exampleScanner exampleOpen 4
      (by decide) (by decide) (by decide)
  exact ⟨r, s', h, by rw [hp]; decide⟩

/-- C2: for every port list and every limit `k ≥ 1`, `chunkArray` returns
(given fuel above the number of ports) consecutive batches: concatenated they
are the port list, every batch has between 1 and `k` ports, every batch but the
last has exactly `k`, the empty list gives no batch; and when the ports are
ports that the socket library accepts (integers within [0, 65535]), the groups
of probes that `scanPorts` starts together are exactly these batches, one after
the other, so that no group has more than `k` probes. -/
theorem chunkArray_partitions_into_batches (ports : List JSNum) (k : Int) (fuel : Nat)
    (hk : 1 ≤ k) (hf : ports.length < fuel) :
    ∃ batches, chunkArray fuel ports k = some batches ∧
      batches.flatten = ports ∧
      (∀ b ∈ batches, 1 ≤ b.length ∧ (b.length : Int) ≤ k) ∧
      (∀ b ∈ batches.dropLast, (b.length : Int) = k) ∧
      (ports = [] → batches = []) ∧
      ∀ (s : XillenNetworkScanner) (isOpen : JSNum → Bool), s.ports = ports → s.threads = k →
        (∀ p ∈ ports, isSocketPort p = true) →
        ∃ st, scanPortsState fuel isOpen s = some st ∧ st.probed = batches ∧
          ∀ g ∈ st.probed, (g.length : Int) ≤ k := by
  obtain ⟨batches, hb, hj, hlen, hlast, hnil⟩ := chunkArray_spec ports k hk fuel hf
  refine ⟨batches, hb, hj, hlen, hlast, hnil, ?_⟩
  intro s isOpen hp ht hv
  subst hp; subst ht
  obtain ⟨batches', hb', hst⟩ := scanPortsState_spec s isOpen fuel hk hf hv
  rw [hb] at hb'
  cases hb'
  exact ⟨_, hst, rfl, fun g hg => (hlen g hg).2⟩

/-- C2, example: three ports in batches of two are probed as the groups
`[80, 22]` and `[443]`. -/
theorem chunkArray_batches_witness :
    (1 : Int) ≤ 2 ∧ [(80 : JSNum), 22, 443].length < 4 ∧
      ∃ batches, chunkArray 4 [(80 : JSNum), 22, 443] 2 = some batches ∧
        batches = [[80, 22], [443]] ∧
        ∃ st, scanPortsState 4 exampleOpen exampleScanner = some st ∧ st.probed = batches := by
  refine ⟨by decide, by decide, ?_⟩
  obtain ⟨batches, hb, -, -, -, -, hs⟩ :=
    chunkArray_partitions_into_batches [80, 22, 443] 2 4 (by decide) (by decide)
  obtain ⟨st, hst, hpr, -⟩ := hs exampleScanner exampleOpen rfl rfl (by decide)
  refine ⟨batches, hb, ?_, st, hst, hpr⟩
  have h2 : chunkArray 4 [(80 : JSNum), 22, 443] 2 = some [[80, 22], [443]] := by decide
  rw [hb] at h2
  exact Option.some.inj h2

/-- C7, as stated, fails: with the `threads` option 0 the constructor takes the
default limit 100, and the two ports 80 and 443 form one batch of two ports,
not two batches of one port. -/
theorem threads_zero_is_not_one :
    (XillenNetworkScanner.new (optionsWith [80, 443] 0)).threads = 100 ∧
      chunkArray 3 (XillenNetworkScanner.new (optionsWith [80, 443] 0)).ports
        (XillenNetworkScanner.new (optionsWith [80, 443] 0)).threads = some [[80, 443]] ∧
      chunkArray 3 [(80 : JSNum), 443] 1 = some [[80], [443]] := by
  decide

/-- C7, amended: a `threads` option of 0 is replaced by the default 100, and
the scan behaves as with the limit 100: `chunkArray` returns (given fuel above
the number of ports) consecutive batches of at most 100 ports that concatenate
to the port list, every batch but the last having exactly 100. -/
theorem threads_zero_defaults_to_100 (options : Options) (fuel : Nat)
    (h0 : options.threads = some 0) (hf : (XillenNetworkScanner.new options).ports.length < fuel) :
    (XillenNetworkScanner.new options).threads = 100 ∧
      ∃ batches,
        chunkArray fuel (XillenNetworkScanner.new options).ports (XillenNetworkScanner.new options).threads =
          some batches ∧
        batches.flatten = (XillenNetworkScanner.new options).ports ∧
        (∀ b ∈ batches, 1 ≤ b.length ∧ b.length ≤ 100) ∧
        (∀ b ∈ batches.dropLast, b.length = 100) := by
  have ht : (XillenNetworkScanner.new options).threads = 100 := by
    simp only [XillenNetworkScanner.new, h0]; rfl
  refine ⟨ht, ?_⟩
  rw [ht]
  obtain ⟨batches, hb, hj, hlen, hlast, -⟩ :=
    chunkArray_spec (XillenNetworkScanner.new options).ports 100 (by decide) fuel hf
  refine ⟨batches, hb, hj, ?_, ?_⟩
  · intro b hb'
    have := hlen b hb'
    exact ⟨this.1, by exact_mod_cast this.2⟩
  · intro b hb'
    exact_mod_cast hlast b hb'

/-- C7, amended, example: with the `threads` option 0 the ports 80 and 443 are
one batch. -/
theorem threads_zero_witness :
    (optionsWith [80, 443] 0).threads = some 0 ∧
      (XillenNetworkScanner.new (optionsWith [80, 443] 0)).ports.length < 3 ∧
      (XillenNetworkScanner.new (optionsWith [80, 443] 0)).threads = 100 :=
  ⟨rfl, by decide, (threads_zero_defaults_to_100 (optionsWith [80, 443] 0) 3 rfl (by decide)).1⟩

/-- C8, as stated, fails: the port option `80,80` gives the port list
`[80, 80]`, and when port 80 is open `scanPorts` reports it twice. -/
theorem scanPorts_reports_duplicate_twice :
    (action "host" (cliWith "80,80")).toOption = some duplicateScanner ∧
      duplicateScanner.ports = [80, 80] ∧
      (scanPorts 3 (fun _ => true) duplicateScanner).map (fun x => x.1.map (fun y => y.port)) =
        some [80, 80] ∧
      ¬ [(80 : JSNum), 80].Nodup := by
  decide

/-- C8, amended: `scanPorts` does not deduplicate; for every port list of ports
that the socket library accepts (integers within [0, 65535]) it reports an open
port once for each time the port is listed and a closed port never, so the
result has no port twice when the port list has none twice. -/
theorem scanPorts_reports_each_listing_once (s : XillenNetworkScanner)
    (isOpen : JSNum → Bool) (fuel : Nat) (hk : 1 ≤ s.threads) (hf : s.ports.length < fuel)
    (hv : ∀ p ∈ s.ports, isSocketPort p = true) :
    ∃ r s', scanPorts fuel isOpen s = some (r, s') ∧
      (∀ p, (r.map (fun x => x.port)).count p = if isOpen p then s.ports.count p else 0) ∧
      (s.ports.Nodup → (r.map (fun x => x.port)).Nodup) := by
  refine ⟨_, _, scanPorts_spec s isOpen fuel hk hf hv, ?_, ?_⟩
  · intro p
    rw [map_port_openResult]
    by_cases h : isOpen p = true
    · rw [if_pos h, List.count_filter h]
    · rw [if_neg h, List.count_eq_zero]
      intro hmem
      exact h (List.mem_filter.1 hmem).2
  · intro hn
    rw [map_port_openResult]
    exact hn.filter _

/-- C8, amended, example: the ports 80, 22, 443, each listed once, with 22 and
443 open give a result without a repeated port. -/
theorem scanPorts_listing_witness :
    1 ≤ exampleScanner.threads ∧ exampleScanner.ports.length < 4 ∧
      (∀ p ∈ exampleScanner.ports, isSocketPort p = true) ∧
      ∃ r s', scanPorts 4 exampleOpen exampleScanner = some (r, s') ∧
        (r.map (fun x => x.port)).Nodup := by
  refine ⟨by decide, by decide, by decide, ?_⟩
  obtain ⟨r, s', h, -, hn⟩ :=
    scanPorts_reports_each_listing_once exampleScanner exampleOpen 4 (by decide) (by decide)
      (by decide)
  exact ⟨r, s', h, hn (by decide)⟩

/-- C5: for every service record with the service `FTP`, whatever its version,
`checkVulnerabilities` returns exactly one finding, the advisory with severity
`Info`, identifier `N/A` and the port of the record. -/
theorem checkVulnerabilities_ftp_advisory (service : ServiceRecord)
    (h : service.service = some "FTP") :
    checkVulnerabilities service = [ftpFinding service.port] ∧
      ∃ f, f ∈ checkVulnerabilities service ∧ f.severity = "Info" ∧ f.cve = "N/A" ∧
        f.port = service.port := by
  have e : checkVulnerabilities service = [ftpFinding service.port] := by
    have h1 : ¬ (some "FTP" = some "SSH") := by decide
    have h2 : ¬ (some "FTP" = some "HTTP") := by decide
    simp [checkVulnerabilities, h, h1, h2, ftpFinding]
  exact ⟨e, ftpFinding service.port, by rw [e]; simp, rfl, rfl, rfl⟩

/-- C5, example: an FTP record whose version looks like a vulnerable OpenSSH
gets the advisory and nothing else. -/
theorem checkVulnerabilities_ftp_witness :
    checkVulnerabilities
        { port := 21, service := some "FTP", version := "OpenSSH 7.1 Apache 2.2.14",
          banner := none, details := none } = [ftpFinding 21] :=
  (checkVulnerabilities_ftp_advisory
    { port := 21, service := some "FTP", version := "OpenSSH 7.1 Apache 2.2.14",
      banner := none, details := none } rfl).1

/-- C3: for every service record with the service `SSH` whose version contains
`OpenSSH`: when `d1.d2` is the first major.minor number in the version,
`checkVulnerabilities` returns exactly the finding CVE-2018-15473 with severity
`Medium` and the port of the record if that number is below 7.4, and the empty
sequence if it is not.  The number is read as `parseFloat` reads it, as a
decimal fraction rounded to a double (so `7.10` is the number 7.1), and 7.4 is
the double of the literal.  Without a major.minor number the result is empty;
one of the two cases always holds. -/
theorem checkVulnerabilities_openssh_rule (service : ServiceRecord)
    (hs : service.service = some "SSH") (hv : includes service.version "OpenSSH" = true) :
    (∀ d1 d2, FirstVersion [] service.version.data d1 d2 →
      ((decimalDouble d1 d2).lt (roundDouble 74 10) = true →
        checkVulnerabilities service = [opensshFinding service.port]) ∧
      ((decimalDouble d1 d2).lt (roundDouble 74 10) = false →
        checkVulnerabilities service = [])) ∧
    (NoVersion [] service.version.data → checkVulnerabilities service = []) ∧
    ((∃ d1 d2, FirstVersion [] service.version.data d1 d2) ∨
      NoVersion [] service.version.data) := by
  have h1 : ¬ (some "SSH" = some "HTTP") := by decide
  have h2 : ¬ (some "SSH" = some "FTP") := by decide
  refine ⟨?_, ?_, ?_⟩
  · intro d1 d2 hf
    have hm : firstMatch matchMajorMinor service.version.data = some (d1 ++ '.' :: d2) := by
      rw [matchMajorMinor_eq]; exact firstMatch_of_firstVersion _ _ _ _ hf
    have hp : parseFloat (d1 ++ '.' :: d2) = decimalDouble d1 d2 :=
      parseFloat_majorMinor d1 d2 hf.choose_spec.choose_spec.2.1
    constructor
    · intro hlt
      simp [checkVulnerabilities, hs, hv, hm, hp, hlt, h1, h2, opensshFinding]
    · intro hge
      simp [checkVulnerabilities, hs, hv, hm, hp, hge, h1, h2]
  · intro hn
    have hm : firstMatch matchMajorMinor service.version.data = none := by
      rw [matchMajorMinor_eq]; exact firstMatch_of_noVersion _ _ hn
    simp [checkVulnerabilities, hs, hv, hm, h1, h2]
  · cases hm : firstMatch (matchKeyed []) service.version.data with
    | none => exact Or.inr (noVersion_of_firstMatch _ _ hm)
    | some r =>
      obtain ⟨pre, suf, -, hsuf⟩ := firstMatch_some_split _ _ _ hm
      obtain ⟨d1, d2, rest, -, hmm, -, hr⟩ := matchKeyed_some _ _ _ hsuf
      subst hr
      exact Or.inl ⟨d1, d2, firstVersion_of_firstMatch _ _ _ _ hm hmm⟩

/-- C3, examples: the version `OpenSSH 7.1` gives exactly the finding
CVE-2018-15473 with severity `Medium`, and so does `OpenSSH_7.10p1`, read as
7.1; `OpenSSH 8.0` and `OpenSSH 7.4` give none. -/
theorem checkVulnerabilities_openssh_witness :
    checkVulnerabilities (sshRecord "OpenSSH 7.1") = [opensshFinding 22] ∧
      (opensshFinding 22).cve = "CVE-2018-15473" ∧ (opensshFinding 22).severity = "Medium" ∧
      checkVulnerabilities (sshRecord "OpenSSH 8.0") = [] ∧
      checkVulnerabilities (sshRecord "OpenSSH 7.4") = [] ∧
      checkVulnerabilities (sshRecord "OpenSSH_7.10p1") = [opensshFinding 22] :=
  ⟨((checkVulnerabilities_openssh_rule (sshRecord "OpenSSH 7.1") rfl (by decide)).1
      ['7'] ['1'] (firstVersion_of_firstMatch _ _ _ _ (by decide) (by decide))).1 (by decide),
    rfl, rfl,
    ((checkVulnerabilities_openssh_rule (sshRecord "OpenSSH 8.0") rfl (by decide)).1
      ['8'] ['0'] (firstVersion_of_firstMatch _ _ _ _ (by decide) (by decide))).2 (by decide),
    ((checkVulnerabilities_openssh_rule (sshRecord "OpenSSH 7.4") rfl (by decide)).1
      ['7'] ['4'] (firstVersion_of_firstMatch _ _ _ _ (by decide) (by decide))).2 (by decide),
    ((checkVulnerabilities_openssh_rule (sshRecord "OpenSSH_7.10p1") rfl (by decide)).1
      ['7'] ['1', '0'] (firstVersion_of_firstMatch _ _ _ _ (by decide) (by decide))).1
      (by decide)⟩

/-- C4: for every banner that contains `SSH` the version is decided by the SSH
rule alone, whatever else the banner contains: it is `SSH ` followed by
`d1.d2` when these are the digits of the first occurrence of
`SSH-<digits>.<digits>`, and `Unknown` when there is no such occurrence; one of
the two is always the case. -/
theorem parseBanner_ssh_rule_decides (banner : String) (port : JSNum)
    (h : includes banner "SSH" = true) :
    (∀ d1 d2, FirstVersion "SSH-".data banner.data d1 d2 →
      (parseBanner banner port).version.data = "SSH ".data ++ (d1 ++ '.' :: d2)) ∧
    (NoVersion "SSH-".data banner.data → (parseBanner banner port).version = "Unknown") ∧
    ((∃ d1 d2, FirstVersion "SSH-".data banner.data d1 d2) ∨
      NoVersion "SSH-".data banner.data) := by
  have hi : includesL banner.data "SSH".data = true := h
  refine ⟨?_, ?_, ?_⟩
  · intro d1 d2 hf
    have hm := firstMatch_of_firstVersion _ _ _ _ hf
    rw [← matchSsh_eq] at hm
    simp [parseBanner, parseVersionL, hi, hm]
  · intro hn
    have hm := firstMatch_of_noVersion _ _ hn
    rw [← matchSsh_eq] at hm
    simp [parseBanner, parseVersionL, hi, hm]
  · cases hm : firstMatch (matchKeyed "SSH-".data) banner.data with
    | none => exact Or.inr (noVersion_of_firstMatch _ _ hm)
    | some r =>
      obtain ⟨pre, suf, -, hs⟩ := firstMatch_some_split _ _ _ hm
      obtain ⟨d1, d2, rest, -, hmm, -, hr⟩ := matchKeyed_some _ _ _ hs
      subst hr
      exact Or.inl ⟨d1, d2, firstVersion_of_firstMatch _ _ _ _ hm hmm⟩

/-- C4, examples: the banner `SSH-2.0-OpenSSH_7.2` has the version `SSH 2.0`;
a banner with the markers `HTTP` and `SSH` and a `Server:` header, but without
`SSH-<digits>.<digits>`, has the version `Unknown`. -/
theorem parseBanner_ssh_witness :
    (parseBanner "SSH-2.0-OpenSSH_7.2" 22).version = "SSH 2.0" ∧
      (parseBanner "HTTP/1.1 200 OK\r\nServer: OpenSSH\r\n" 80).version = "Unknown" :=
  ⟨String.ext ((parseBanner_ssh_rule_decides "SSH-2.0-OpenSSH_7.2" 22 (by decide)).1
      ['2'] ['0'] (firstVersion_of_firstMatch _ _ _ _ (by decide) (by decide))),
    (parseBanner_ssh_rule_decides "HTTP/1.1 200 OK\r\nServer: OpenSSH\r\n" 80 (by decide)).2.1
      (noVersion_of_firstMatch _ _ (by decide))⟩

/-- C6: `parseBanner` is a total function, so it returns a record for every
banner and port.  The banner field of the record is the banner without its
leading and trailing white space; the version is `Unknown` when the banner
contains none of the markers `SSH`, `HTTP`, `FTP`, and when the marker that
selects the rule is there but the pattern of that rule is not. -/
theorem parseBanner_degrades_to_unknown (banner : String) (port : JSNum) :
    (∃ t pre suf, (parseBanner banner port).banner = some (String.mk t) ∧
        banner.data = pre ++ (t ++ suf) ∧
        (∀ c ∈ pre, isJsSpace c = true) ∧ (∀ c ∈ suf, isJsSpace c = true) ∧
        (∀ c, t.head? = some c → isJsSpace c = false) ∧
        (∀ c, t.getLast? = some c → isJsSpace c = false)) ∧
    (includes banner "SSH" = false → includes banner "HTTP" = false →
      includes banner "FTP" = false → (parseBanner banner port).version = "Unknown") ∧
    (includes banner "SSH" = true → NoVersion "SSH-".data banner.data →
      (parseBanner banner port).version = "Unknown") ∧
    (includes banner "SSH" = false → includes banner "HTTP" = true →
      NoServerHeader banner.data → (parseBanner banner port).version = "Unknown") ∧
    (includes banner "SSH" = false → includes banner "HTTP" = false →
      includes banner "FTP" = true → NoReply220 banner.data →
      (parseBanner banner port).version = "Unknown") := by
  refine ⟨?_, ?_, ?_, ?_, ?_⟩
  · obtain ⟨pre, suf, h1, h2, h3, h4, h5⟩ := trimL_spec banner.data
    exact ⟨trimL banner.data, pre, suf, rfl, h1, h2, h3, h4, h5⟩
  · intro h1 h2 h3
    have e1 : includesL banner.data "SSH".data = false := h1
    have e2 : includesL banner.data "HTTP".data = false := h2
    have e3 : includesL banner.data "FTP".data = false := h3
    simp [parseBanner, parseVersionL, e1, e2, e3]
  · intro h1 hn
    have e1 : includesL banner.data "SSH".data = true := h1
    have hm := firstMatch_of_noVersion _ _ hn
    rw [← matchSsh_eq] at hm
    simp [parseBanner, parseVersionL, e1, hm]
  · intro h1 h2 hn
    have e1 : includesL banner.data "SSH".data = false := h1
    have e2 : includesL banner.data "HTTP".data = true := h2
    simp [parseBanner, parseVersionL, e1, e2, firstMatch_matchServer_of_none _ hn]
  · intro h1 h2 h3 hn
    have e1 : includesL banner.data "SSH".data = false := h1
    have e2 : includesL banner.data "HTTP".data = false := h2
    have e3 : includesL banner.data "FTP".data = true := h3
    simp [parseBanner, parseVersionL, e1, e2, e3, firstMatch_match220_of_none _ hn]

/-- C6, example: the empty banner on port 80 has the version `Unknown`. -/
theorem parseBanner_empty_witness : (parseBanner "" 80).version = "Unknown" :=
  (parseBanner_degrades_to_unknown "" 80).2.1 (by decide) (by decide) (by decide)

/-- C10: the version that `parseBanner` returns never contains `OpenSSH`; hence
no record that `serviceDetection` builds, from `parseBanner` or from one of the
two fallbacks, makes `checkVulnerabilities` yield the finding CVE-2018-15473,
and no run of the pipeline on a scanner from the constructor has that finding
among its vulnerabilities. -/
theorem openssh_rule_never_fires_in_pipeline :
    (∀ (banner : String) (port : JSNum),
      includes (parseBanner banner port).version "OpenSSH" = false) ∧
    (∀ (capture : JSNum → Capture) (portInfo : PortResult),
      ∀ f ∈ checkVulnerabilities (serviceRecord capture portInfo),
        f.cve ≠ "CVE-2018-15473") ∧
    (∀ (fuel : Nat) (isOpen : JSNum → Bool) (capture : JSNum → Capture) (options : Options)
      (s : XillenNetworkScanner), run fuel isOpen capture (XillenNetworkScanner.new options) = some s →
      ∀ f ∈ s.results.vulnerabilities, f.cve ≠ "CVE-2018-15473") := by
  refine ⟨fun banner _ => parseVersionL_no_openssh banner.data, ?_, ?_⟩
  · intro capture portInfo
    exact checkVulnerabilities_without_openssh _ (serviceRecord_without_openssh capture portInfo)
  · intro fuel isOpen capture options s h f hf
    obtain ⟨found, hv⟩ := run_vulnerabilities fuel isOpen capture _ s h
    rw [hv] at hf
    simp only [XillenNetworkScanner.new, List.nil_append, List.mem_flatten, List.mem_map] at hf
    obtain ⟨l, ⟨rec, ⟨portInfo, -, hrec⟩, hl⟩, hfl⟩ := hf
    subst hrec; subst hl
    exact checkVulnerabilities_without_openssh _
      (serviceRecord_without_openssh capture portInfo) f hfl

/-- C10, example: an OpenSSH 7.2 server on the open port 22 is recorded with
the version `SSH 2.0`, and the run has no finding CVE-2018-15473. -/
theorem openssh_rule_witness :
    (run 4 exampleOpen exampleCapture exampleScanner).map (fun s => s.results.services) =
        some
          [{ port := 22, service := some "SSH", version := "SSH 2.0",
             banner := some "SSH-2.0-OpenSSH_7.2", details := some {} },
           { port := 443, service := some "HTTPS", version := "Unknown",
             banner := none, details := none }] ∧
      ∀ s, run 4 exampleOpen exampleCapture exampleScanner = some s →
        ∀ f ∈ s.results.vulnerabilities, f.cve ≠ "CVE-2018-15473" :=
  ⟨by decide, fun s h =>
    openssh_rule_never_fires_in_pipeline.2.2 4 exampleOpen exampleCapture _ s h⟩

/-- C9, as stated, fails: the malformed port specs `10-5`, `0` and `70000` are
not rejected; the action constructs a scanner with the port lists `[]`, `[0]`
and `[70000]`.  A timeout option `0` and a threads option `-4` are not rejected
either: the scanner gets the timeout 1000 and the concurrency limit -4. -/
theorem malformed_configuration_is_not_rejected :
    (action "host" (cliWith "10-5")).toOption.map (fun s => s.ports) = some [] ∧
      (action "host" (cliWith "0")).toOption.map (fun s => s.ports) = some [0] ∧
      (action "host" (cliWith "70000")).toOption.map (fun s => s.ports) = some [70000] ∧
      isValidPort 0 = false ∧ isValidPort 70000 = false ∧
      (action "host" (cliFull (some "80") "0" "-4")).toOption.map
        (fun s => (s.ports, s.timeout, s.threads)) = some ([80], 1000, -4) := by
  decide

/-- C9, amended: the action validates nothing.  It throws only the
`RangeError` of a range of more than `2 ^ 32 - 1` ports and otherwise always
constructs the scanner.  For a well-formed port spec the port list handed to
the scanner consists of integers within [1, 65535]: a comma list of decimal
integers within [1, 65535] gives these integers in their order, a range `a-b`
of two such integers with `a ≤ b` gives `a, a + 1, ..., b`, and the built-in
lists (the quick scan; no port option or an empty one) are within the bounds. -/
theorem action_constructs_scanner_without_validation (target : String) (options : CliOptions) :
    (∀ e, action target options = Except.error e → e = "RangeError: Invalid array length") ∧
    (∀ tokens, options.quick = false → options.ports = some (String.mk (commaList tokens)) →
      tokens ≠ [] → (∀ t ∈ tokens, IsPortToken t) →
      ∃ s, action target options = Except.ok s ∧
        s.ports = tokens.map (fun t => JSNum.int (digitsVal t)) ∧
        ∀ p ∈ s.ports, isValidPort p = true) ∧
    (∀ ta tb, options.quick = false → options.ports = some (String.mk (ta ++ '-' :: tb)) →
      IsPortToken ta → IsPortToken tb → digitsVal ta ≤ digitsVal tb →
      ∃ s, action target options = Except.ok s ∧
        s.ports = (List.range (digitsVal tb - digitsVal ta + 1)).map
          (fun i : Nat => JSNum.int ((digitsVal ta : Int) + (i : Int))) ∧
        ∀ p ∈ s.ports, isValidPort p = true) ∧
    (options.quick = true ∨ options.ports = none ∨ options.ports = some "" →
      ∃ s, action target options = Except.ok s ∧ ∀ p ∈ s.ports, isValidPort p = true) := by
  refine ⟨action_error target options, ?_, ?_, ?_⟩
  · intro tokens hq hp hne ht
    refine ⟨_, action_ports target options _ (parsePorts_commaList options tokens hq hp hne ht),
      rfl, ?_⟩
    intro p hp'
    obtain ⟨t, htm, rfl⟩ := List.mem_map.1 hp'
    exact validPort_of_token t (ht t htm)
  · intro ta tb hq hp ha hb hab
    refine ⟨_, action_ports target options _ (parsePorts_range options ta tb hq hp ha hb hab),
      rfl, ?_⟩
    intro p hp'
    obtain ⟨i, hi, rfl⟩ := List.mem_map.1 hp'
    have hi' := List.mem_range.1 hi
    have h1 := ha.2.2.1
    have h2 := hb.2.2.2
    simp only [isValidPort, Bool.and_eq_true, decide_eq_true_eq]
    omega
  · intro h
    by_cases hq : options.quick = true
    · have hpp : parsePorts options = Except.ok (some quickPorts) := by
        simp [parsePorts, hq]
      refine ⟨_, action_ports target options _ hpp, ?_⟩
      show ∀ p ∈ quickPorts, isValidPort p = true
      decide
    · have hpp : parsePorts options = Except.ok none := by
        rcases h with h | h | h
        · exact absurd h hq
        · simp [parsePorts, hq, h]
        · simp [parsePorts, hq, h]
      refine ⟨_, action_ports target options _ hpp, ?_⟩
      show ∀ p ∈ getCommonPorts, isValidPort p = true
      decide

/-- C9, amended, example: the port option `80,443` gives the port list
`[80, 443]`. -/
theorem action_wellformed_witness :
    ∃ s, action "host" (cliWith "80,443") = Except.ok s ∧ s.ports = [80, 443] ∧
      ∀ p ∈ s.ports, isValidPort p = true :=
  (action_constructs_scanner_without_validation "host" (cliWith "80,443")).2.1
    [['8', '0'], ['4', '4', '3']] rfl rfl (by decide) (by decide)

end Xillen
